import Mathlib

/-! # Map editor of waterCloset (`src/mapEditor.c`)

A shallow embedding of the editor's logic and draw passes and of its stage
serialisation, followed by the properties proved about them.

Conventions of the embedding

* C `int` values are mathematical integers; `/` is C's truncating division
  (`Int.tdiv`).  Pixel coordinates stay far from the limits of `int`.
* `Entity.x`, `Entity.y` (C `float`) hold integers: every value the editor
  stores into them is an `int` expression, and `collision` takes `int` arguments.
* Pointers to `Entity` are addresses; address `0` is `&stage.entityHead`, the
  sentinel that heads the entity list, and `NULL` is `none`.  Allocated
  entities live in `Editor.mem`; `free` removes the address from it, and a
  read through a pointer that is not allocated makes the operation fail
  (`none`).
* Calls that leave the translation unit (`removeFromQuadtree`, `addToQuadtree`,
  `free`, the render calls, `writeFile`) and the writes that the properties
  speak about are recorded, in program order, in `Editor.effects`.
* Loops over the entity list and the `do ... while` of `cycleTile` take a fuel
  argument; running out of fuel is `none`.
-/

namespace MapEditor

/-- Address of an `Entity` object; `0` is `&stage.entityHead`. -/
abbrev Addr := Nat

/-- The constants of `defs.h` that `mapEditor.c` uses (the header is not among
the sources, so they are parameters). -/
structure Defs where
  MAP_WIDTH : Int
  MAP_HEIGHT : Int
  TILE_SIZE : Int
  SCREEN_WIDTH : Int
  SCREEN_HEIGHT : Int
  MAX_TILES : Int
  deriving DecidableEq, Repr

/-- Signature of `collision(x1, y1, w1, h1, x2, y2, w2, h2)` from `system/util.c`
(not among the sources: every operation takes it as a parameter). -/
abbrev Collision := Int → Int → Int → Int → Int → Int → Int → Int → Bool

/-- The part of `Platform` that the editor touches (`sx`, `sy`); `rest` stands
for the remaining words of the struct. -/
structure Platform where
  sx : Int
  sy : Int
  rest : List Int
  deriving DecidableEq, Repr

/-- The object behind `Entity.data`. -/
inductive Payload where
  | platform (p : Platform)
  | other (words : List Int)
  deriving DecidableEq, Repr

/-- The fields of `Entity` that the editor reads or writes.  `save` is the
function pointer of the save capability (`none` is `NULL`). -/
structure Entity where
  id : Int
  type : Int
  typeName : String
  name : String
  x : Int
  y : Int
  w : Int
  h : Int
  facing : Int
  flags : Nat
  data : Payload
  save : Option Nat
  next : Option Addr
  deriving DecidableEq, Repr

/-- Values of a cJSON document. -/
inductive JSON where
  | num (v : Int)
  | str (s : String)
  | arr (items : List JSON)
  | obj (fields : List (String × JSON))
  deriving Repr

/-- The recorded effects, in program order. -/
inductive Effect where
  | removeFromQuadtree (e : Addr) (x y w h : Int)
  | addToQuadtree (e : Addr) (x y w h : Int)
  | setNext (p : Addr) (next : Option Addr)
  | setMap (x y v : Int)
  | setX (e : Addr) (v : Int)
  | setY (e : Addr) (v : Int)
  | freeData (e : Addr)
  | free (e : Addr)
  | render (what : String)
  | writeFile (num : Int) (doc : JSON)
  deriving Repr

/-- The editor modes (`MODE_TILE`, `MODE_ENT`, `MODE_PICK`). -/
inductive Mode where
  | TILE
  | ENT
  | PICK
  deriving DecidableEq, Repr

/-- Pointer state `app.mouse`: position and the four buttons the editor reads. -/
structure Mouse where
  x : Int
  y : Int
  left : Bool
  right : Bool
  x1 : Bool
  x2 : Bool
  deriving DecidableEq, Repr

/-- The scancodes of `app.keyboard` that the editor reads. -/
structure Keyboard where
  space : Bool
  k1 : Bool
  k2 : Bool
  k3 : Bool
  up : Bool
  down : Bool
  left : Bool
  right : Bool
  deriving DecidableEq, Repr

/-- The globals `stage`, `app` and the file-level statics of `mapEditor.c`. -/
structure Editor where
  /-- allocated `Entity` objects; address `0` is `stage.entityHead` -/
  mem : Addr → Option Entity
  entityTail : Addr
  map : Int → Int → Int
  /-- whether `stage.tiles[i] != NULL` -/
  tiles : Int → Bool
  cameraX : Int
  cameraY : Int
  num : Int
  cloneLimit : Int
  timeLimit : Int
  tips : List String
  mouse : Mouse
  keyboard : Keyboard
  tile : Int
  cameraTimer : Int
  entities : List Entity
  entIndex : Int
  entity : Entity
  selectedEntity : Option Addr
  mode : Mode
  self : Option Addr
  /-- next address handed out by `malloc` -/
  brk : Addr
  effects : List Effect

/-- Record one effect. -/
def Editor.emit (s : Editor) (ev : Effect) : Editor :=
  { s with effects := s.effects ++ [ev] }

/-- Store `ent` at address `a`. -/
def Editor.store (s : Editor) (a : Addr) (ent : Entity) : Editor :=
  { s with mem := Function.update s.mem a (some ent) }

/-- Body of the `for` loop of `deleteEntity`; `prev` and `e` are the loop
variables, the third argument being `e` at the loop test. -/
def deleteEntityLoop (collision : Collision) : Nat → Addr → Option Addr → Editor → Option Editor
  | _, _, none, s => some s
  | 0, _, some _, _ => none
  | fuel + 1, prev, some e, s => do
    let ent ← s.mem e
    if collision (s.mouse.x + s.cameraX) (s.mouse.y + s.cameraY) 1 1 ent.x ent.y ent.w ent.h then
      -- if (e == stage.entityTail) stage.entityTail = prev;
      let s := if e = s.entityTail then { s with entityTail := prev } else s
      -- prev->next = e->next;
      let p ← s.mem prev
      let ent ← s.mem e
      let s := (s.store prev { p with next := ent.next }).emit (.setNext prev ent.next)
      -- removeFromQuadtree(e, &stage.quadtree);
      let ent ← s.mem e
      let s := s.emit (.removeFromQuadtree e ent.x ent.y ent.w ent.h)
      -- if (e->id != -1) free(e->data);
      let s := if ent.id ≠ -1 then s.emit (.freeData e) else s
      -- free(e);
      let s := { s with mem := Function.update s.mem e none }.emit (.free e)
      -- e = prev; prev = e; and the loop's e = e->next
      let p ← s.mem prev
      deleteEntityLoop collision fuel prev p.next s
    else
      -- prev = e; e = e->next
      deleteEntityLoop collision fuel e ent.next s

/-- The function `deleteEntity`. -/
def deleteEntity (collision : Collision) (fuel : Nat) (s : Editor) : Option Editor := do
  let hd ← s.mem 0
  deleteEntityLoop collision fuel 0 hd.next s

/-! ## The entity store as a list -/

/-- The addresses reached from `start` by following `next` up to `NULL`. -/
def Chain (mem : Addr → Option Entity) : Option Addr → List Addr → Prop
  | start, [] => start = none
  | start, a :: l => start = some a ∧ ∃ ent, mem a = some ent ∧ Chain mem ent.next l

/-- Last element of `d :: l`. -/
def lastOr (d : Addr) : List Addr → Addr
  | [] => d
  | a :: l => lastOr a l

/-- The entity store holds exactly the entities at addresses `l`, in list
order: the sentinel at address `0` heads the chain, no entity is linked twice,
and `entityTail` is the last entity or the sentinel. -/
structure Store (s : Editor) (l : List Addr) : Prop where
  chain : ∃ hd, s.mem 0 = some hd ∧ Chain s.mem hd.next l
  nodup : l.Nodup
  nohead : 0 ∉ l
  tail : s.entityTail = lastOr 0 l

/-- Whether the entity at `a` collides with the 1x1 rectangle at the cursor
(`app.mouse` + `stage.camera`). -/
def underCursor (collision : Collision) (s : Editor) (a : Addr) : Bool :=
  match s.mem a with
  | some ent => collision (s.mouse.x + s.cameraX) (s.mouse.y + s.cameraY) 1 1 ent.x ent.y ent.w ent.h
  | none => false

/-! ## Picking, flipping and placing entities -/

/-- Loop of `toggleSelectEntity` when nothing is picked: the first entity under
the cursor becomes `selectedEntity` and the function returns. -/
def toggleSelectLoop (collision : Collision) : Nat → Option Addr → Editor → Option Editor
  | _, none, s => some s
  | 0, some _, _ => none
  | fuel + 1, some e, s => do
    let ent ← s.mem e
    if collision (s.mouse.x + s.cameraX) (s.mouse.y + s.cameraY) 1 1 ent.x ent.y ent.w ent.h then
      -- selectedEntity = e; return;
      some { s with selectedEntity := some e }
    else
      toggleSelectLoop collision fuel ent.next s

/-- The function `toggleSelectEntity`.  Writing `sx`, `sy` through
`(Platform*)selectedEntity->data` when the payload is not a `Platform` is
outside the model (`none`). -/
def toggleSelectEntity (collision : Collision) (fuel : Nat) (s : Editor) : Option Editor :=
  match s.selectedEntity with
  | none => do
    let hd ← s.mem 0
    toggleSelectLoop collision fuel hd.next s
  | some sel => do
    -- removeFromQuadtree(selectedEntity, &stage.quadtree);
    let ent ← s.mem sel
    let s := s.emit (.removeFromQuadtree sel ent.x ent.y ent.w ent.h)
    -- selectedEntity->x = ((app.mouse.x / 8) * 8) + stage.camera.x;
    let ent ← s.mem sel
    let x := (s.mouse.x.tdiv 8) * 8 + s.cameraX
    let s := (s.store sel { ent with x := x }).emit (.setX sel x)
    -- selectedEntity->y = ((app.mouse.y / 8) * 8) + stage.camera.y;
    let ent ← s.mem sel
    let y := (s.mouse.y.tdiv 8) * 8 + s.cameraY
    let s := (s.store sel { ent with y := y }).emit (.setY sel y)
    -- addToQuadtree(selectedEntity, &stage.quadtree);
    let ent ← s.mem sel
    let s := s.emit (.addToQuadtree sel ent.x ent.y ent.w ent.h)
    -- if (strcmp(selectedEntity->typeName, "platform") == 0)
    let ent ← s.mem sel
    let s ← (if ent.typeName = "platform" then
        match ent.data with
        | .platform p => some (s.store sel { ent with data := .platform { p with sx := ent.x, sy := ent.y } })
        | .other _ => none
      else some s)
    -- selectedEntity = NULL;
    some { s with selectedEntity := none }

/-- C's `!v` on an `int`. -/
def lnot (v : Int) : Int := if v = 0 then 1 else 0

/-- Loop of `flipSelectedEntity` when nothing is picked. -/
def flipLoop (collision : Collision) : Nat → Option Addr → Editor → Option Editor
  | _, none, s => some s
  | 0, some _, _ => none
  | fuel + 1, some e, s => do
    let ent ← s.mem e
    if collision (s.mouse.x + s.cameraX) (s.mouse.y + s.cameraY) 1 1 ent.x ent.y ent.w ent.h then
      -- e->facing = !e->facing; return;
      some (s.store e { ent with facing := lnot ent.facing })
    else
      flipLoop collision fuel ent.next s

/-- The function `flipSelectedEntity`. -/
def flipSelectedEntity (collision : Collision) (fuel : Nat) (s : Editor) : Option Editor :=
  match s.selectedEntity with
  | some sel => do
    let ent ← s.mem sel
    some (s.store sel { ent with facing := lnot ent.facing })
  | none => do
    let hd ← s.mem 0
    flipLoop collision fuel hd.next s

/-- Modelled from the spec: `spawnEditorEntity` of `world/entityFactory.c`, which
is not among the sources.  The factory constructs an entity of the named type
(`init typeName` stands for its type-specific constructor) at `(x, y)`, with
`id` -1 because it has not been persisted, and appends it to the entity store:
O(1) insert at the tail. -/
def spawnEditorEntity (init : String → Entity) (typeName : String) (x y : Int) (s : Editor) :
    Option (Addr × Editor) := do
  let e := s.brk
  let s := { s with brk := s.brk + 1 }
  let s := s.store e { init typeName with id := -1, x := x, y := y, next := none }
  let t ← s.mem s.entityTail
  let s := (s.store s.entityTail { t with next := some e }).emit (.setNext s.entityTail (some e))
  some (e, { s with entityTail := e })

/-- The function `createEntity`. -/
def createEntity (init : String → Entity) (s : Editor) : Option Editor := do
  let x := (s.mouse.x.tdiv 8) * 8
  let y := (s.mouse.y.tdiv 8) * 8
  let x := x + s.cameraX
  let y := y + s.cameraY
  let (e, s) ← spawnEditorEntity init s.entity.typeName x y s
  -- addToQuadtree(e, &stage.quadtree);
  let ent ← s.mem e
  some (s.emit (.addToQuadtree e ent.x ent.y ent.w ent.h))

/-! ## Cycling the tile and the entity type -/

/-- The function `cycleTile`: the `do ... while (!ok)` loop, one iteration per
unit of fuel. -/
def cycleTile (d : Defs) (dir : Int) : Nat → Editor → Option Editor
  | 0, _ => none
  | fuel + 1, s =>
    -- tile += dir;
    let t := s.tile + dir
    let t := if t < 0 then d.MAX_TILES - 1 else if t ≥ d.MAX_TILES then 0 else t
    let s := { s with tile := t }
    -- ok = stage.tiles[tile] != NULL;
    if s.tiles s.tile then some s else cycleTile d dir fuel s

/-- The function `cycleEnt`; `numEnts` is the length of `entities`, and indexing
`entities` outside its bounds is outside the model (`none`). -/
def cycleEnt (dir : Int) (s : Editor) : Option Editor :=
  let numEnts : Int := s.entities.length
  let i := s.entIndex + dir
  let i := if i < 0 then numEnts - 1 else if i ≥ numEnts then 0 else i
  -- entity = entities[entIndex];
  if 0 ≤ i then (s.entities.get? i.toNat).map fun e => { s with entIndex := i, entity := e }
  else none

/-! ## Saving the stage -/

/-- The character of a decimal digit. -/
def digitChar (n : Nat) : Char := Char.ofNat (48 + n)

/-- Decimal digits of `n`, most significant first, in front of `acc`. -/
def decDigitsAux : Nat → Nat → List Char → List Char
  | 0, _, acc => acc
  | fuel + 1, n, acc =>
    if n < 10 then digitChar n :: acc
    else decDigitsAux fuel (n / 10) (digitChar (n % 10) :: acc)

/-- Decimal digits of a natural number. -/
def decDigits (n : Nat) : List Char := decDigitsAux (n + 1) n []

/-- What `printf` writes for the conversion `%d`. -/
def formatInt (v : Int) : List Char :=
  if v < 0 then '-' :: decDigits v.natAbs else decDigits v.natAbs

/-- The characters that `saveMap` sends to the memory stream: for every `y`,
for every `x`, `fprintf(fp, "%d ", stage.map[x][y])`. -/
def saveMapText (d : Defs) (map : Int → Int → Int) : List Char :=
  (List.range d.MAP_HEIGHT.toNat).foldl
    (fun buf (y : Nat) => (List.range d.MAP_WIDTH.toNat).foldl
      (fun buf (x : Nat) => buf ++ (formatInt (map (x : Int) (y : Int)) ++ [' '])) buf) []

/-- The function `saveMap` (the `open_memstream` variant): adds the string
under `"map"` to `root`. -/
def saveMap (d : Defs) (s : Editor) (root : List (String × JSON)) : List (String × JSON) :=
  root ++ [("map", JSON.str (String.mk (saveMapText d s.map)))]

/-- Signature of the `save` callbacks of the entity types (`e->save`), which
live outside `mapEditor.c`: given the function pointer, the entity `self`
points at and the fields of the cJSON object so far, the fields afterwards. -/
abbrev CallSave := Nat → Entity → List (String × JSON) → List (String × JSON)

/-- Loop of `saveEntities`; `acc` holds the items of `entitiesJSON`. -/
def saveEntitiesLoop (callSave : CallSave) :
    Nat → Option Addr → Editor → List JSON → Option (Editor × List JSON)
  | _, none, s, acc => some (s, acc)
  | 0, some _, _, _ => none
  | fuel + 1, some e, s, acc => do
    -- self = e;
    let s := { s with self := some e }
    let ent ← s.mem e
    let o : List (String × JSON) := []
    let o := o ++ [("type", JSON.str ent.typeName)]
    let o := o ++ [("x", JSON.num ent.x)]
    let o := o ++ [("y", JSON.num ent.y)]
    -- if (strlen(e->name) > 0)
    let o := if ent.name.length > 0 then o ++ [("name", JSON.str ent.name)] else o
    -- if (e->save) e->save(entityJSON);
    let o := match ent.save with
      | some f => callSave f ent o
      | none => o
    saveEntitiesLoop callSave fuel ent.next s (acc ++ [JSON.obj o])

/-- The function `saveEntities`. -/
def saveEntities (callSave : CallSave) (fuel : Nat) (s : Editor) (root : List (String × JSON)) :
    Option (Editor × List (String × JSON)) := do
  let hd ← s.mem 0
  let (s, items) ← saveEntitiesLoop callSave fuel hd.next s []
  some (s, root ++ [("entities", JSON.arr items)])

/-- The function `saveTips`. -/
def saveTips (s : Editor) (root : List (String × JSON)) : List (String × JSON) :=
  root ++ [("tips", JSON.arr ((s.tips.filter fun t => t.length > 0).map JSON.str))]

/-- The function `saveStage`; the file written is recorded by the stage number
that names it and the document. -/
def saveStage (d : Defs) (callSave : CallSave) (fuel : Nat) (s : Editor) : Option Editor := do
  let root : List (String × JSON) := []
  let root := root ++ [("cloneLimit", JSON.num s.cloneLimit)]
  let root := root ++ [("timeLimit", JSON.num s.timeLimit)]
  let (s, root) ← saveEntities callSave fuel s root
  let root := saveTips s root
  let root := saveMap d s root
  some (s.emit (.writeFile s.num (JSON.obj root)))

/-! ## The logic pass -/

/-- The code outside `mapEditor.c` that the logic pass calls into. -/
structure Extern where
  collision : Collision
  init : String → Entity
  callSave : CallSave

/-- The assignment `stage.map[x][y] = v`, recorded as an effect; an index
outside the array is outside the model (`none`). -/
def setMap (d : Defs) (x y v : Int) (s : Editor) : Option Editor :=
  if 0 ≤ x ∧ x < d.MAP_WIDTH ∧ 0 ≤ y ∧ y < d.MAP_HEIGHT then
    some ({ s with map := fun i j => if i = x ∧ j = y then v else s.map i j }.emit
      (.setMap x y v))
  else none

/-- The block `if (app.mouse.buttons[SDL_BUTTON_LEFT])` of `logic`. -/
def logicLeft (d : Defs) (ext : Extern) (fuel : Nat) (s : Editor) : Option Editor :=
  if s.mouse.left then
    match s.mode with
    | .TILE =>
      let x := (s.mouse.x + s.cameraX).tdiv d.TILE_SIZE
      let y := (s.mouse.y + s.cameraY).tdiv d.TILE_SIZE
      setMap d x y s.tile s
    | .ENT => createEntity ext.init { s with mouse := { s.mouse with left := false } }
    | .PICK =>
      toggleSelectEntity ext.collision fuel { s with mouse := { s.mouse with left := false } }
  else some s

/-- The block `if (app.mouse.buttons[SDL_BUTTON_RIGHT])` of `logic`. -/
def logicRight (d : Defs) (ext : Extern) (fuel : Nat) (s : Editor) : Option Editor :=
  if s.mouse.right then
    match s.mode with
    | .TILE =>
      let x := (s.mouse.x + s.cameraX).tdiv d.TILE_SIZE
      let y := (s.mouse.y + s.cameraY).tdiv d.TILE_SIZE
      setMap d x y 0 s
    | .ENT => deleteEntity ext.collision fuel s
    | .PICK =>
      flipSelectedEntity ext.collision fuel { s with mouse := { s.mouse with right := false } }
  else some s

/-- The blocks of `logic` for the side buttons `SDL_BUTTON_X1`, `SDL_BUTTON_X2`. -/
def logicCycle (d : Defs) (fuel : Nat) (s : Editor) : Option Editor := do
  let s ← (if s.mouse.x1 then
      let s := { s with mouse := { s.mouse with x1 := false } }
      match s.mode with
      | .TILE => cycleTile d 1 fuel s
      | .ENT => cycleEnt 1 s
      | .PICK => some s
    else some s)
  if s.mouse.x2 then
    let s := { s with mouse := { s.mouse with x2 := false } }
    match s.mode with
    | .TILE => cycleTile d (-1) fuel s
    | .ENT => cycleEnt (-1) s
    | .PICK => some s
  else some s

/-- The keyboard blocks of `logic`: space saves, `1`, `2`, `3` set the mode. -/
def logicKeys (d : Defs) (ext : Extern) (fuel : Nat) (s : Editor) : Option Editor := do
  let s ← (if s.keyboard.space then
      saveStage d ext.callSave fuel { s with keyboard := { s.keyboard with space := false } }
    else some s)
  let s := if s.keyboard.k1 then
      { s with keyboard := { s.keyboard with k1 := false }, mode := .TILE } else s
  let s := if s.keyboard.k2 then
      { s with keyboard := { s.keyboard with k2 := false }, mode := .ENT } else s
  let s := if s.keyboard.k3 then
      { s with keyboard := { s.keyboard with k3 := false }, mode := .PICK } else s
  some s

/-- The block `if (--cameraTimer <= 0)` of `logic`: the camera pan. -/
def logicCamera (d : Defs) (s : Editor) : Editor :=
  let s := { s with cameraTimer := s.cameraTimer - 1 }
  if s.cameraTimer ≤ 0 then
    let s := { s with cameraTimer := 3 }
    -- if (app.keyboard[SDL_SCANCODE_UP]) stage.camera.y -= TILE_SIZE; and so on
    let s := { s with cameraY := if s.keyboard.up then s.cameraY - d.TILE_SIZE else s.cameraY }
    let s := { s with cameraY := if s.keyboard.down then s.cameraY + d.TILE_SIZE else s.cameraY }
    let s := { s with cameraX := if s.keyboard.left then s.cameraX - d.TILE_SIZE else s.cameraX }
    let s := { s with cameraX := if s.keyboard.right then s.cameraX + d.TILE_SIZE else s.cameraX }
    -- the upper bound for x has the extra term (TILE_SIZE - 64)
    let s := { s with
      cameraX := min (max s.cameraX 0)
        (d.MAP_WIDTH * d.TILE_SIZE - d.SCREEN_WIDTH + (d.TILE_SIZE - 64)) }
    { s with cameraY := min (max s.cameraY 0) (d.MAP_HEIGHT * d.TILE_SIZE - d.SCREEN_HEIGHT) }
  else s

/-- The function `logic`: its blocks in program order. -/
def logic (d : Defs) (ext : Extern) (fuel : Nat) (s : Editor) : Option Editor := do
  let s ← logicLeft d ext fuel s
  let s ← logicRight d ext fuel s
  let s ← logicCycle d fuel s
  let s ← logicKeys d ext fuel s
  some (logicCamera d s)

/-! ## The draw pass -/

/-- The function `drawCurrentTile`: two render calls. -/
def drawCurrentTile (s : Editor) : Editor :=
  (s.emit (.render "blitAtlasImage")).emit (.render "SDL_RenderDrawRect")

/-- The function `drawCurrentEnt`: one render call. -/
def drawCurrentEnt (s : Editor) : Editor :=
  s.emit (.render "blitAtlasImage")

/-- The function `drawSelectedEnt`. -/
def drawSelectedEnt (s : Editor) : Option Editor :=
  match s.selectedEntity with
  | some sel => do
    let x := (s.mouse.x.tdiv 8) * 8
    let y := (s.mouse.y.tdiv 8) * 8
    -- removeFromQuadtree(selectedEntity, &stage.quadtree);
    let ent ← s.mem sel
    let s := s.emit (.removeFromQuadtree sel ent.x ent.y ent.w ent.h)
    -- selectedEntity->x = x + stage.camera.x;
    let ent ← s.mem sel
    let s := (s.store sel { ent with x := x + s.cameraX }).emit (.setX sel (x + s.cameraX))
    -- selectedEntity->y = y + stage.camera.y;
    let ent ← s.mem sel
    let s := (s.store sel { ent with y := y + s.cameraY }).emit (.setY sel (y + s.cameraY))
    -- addToQuadtree(selectedEntity, &stage.quadtree);
    let ent ← s.mem sel
    some (s.emit (.addToQuadtree sel ent.x ent.y ent.w ent.h))
  | none => some s

/-- Loop of `drawInfo` in PICK mode: a `drawText` for every entity under the
cursor. -/
def drawInfoLoop (collision : Collision) : Nat → Option Addr → Editor → Option Editor
  | _, none, s => some s
  | 0, some _, _ => none
  | fuel + 1, some e, s => do
    let ent ← s.mem e
    if collision (s.mouse.x + s.cameraX) (s.mouse.y + s.cameraY) 1 1 ent.x ent.y ent.w ent.h then
      drawInfoLoop collision fuel ent.next (s.emit (.render "drawText"))
    else
      drawInfoLoop collision fuel ent.next s

/-- The function `drawInfo`. -/
def drawInfo (collision : Collision) (fuel : Nat) (s : Editor) : Option Editor := do
  let s := s.emit (.render "drawRect")
  let s := s.emit (.render "drawText")
  let s := s.emit (.render "drawText")
  if s.mode = .PICK then
    let hd ← s.mem 0
    drawInfoLoop collision fuel hd.next s
  else some s

/-- The `switch (mode)` of `draw`. -/
def drawMode (s : Editor) : Option Editor :=
  match s.mode with
  | .TILE => some (drawCurrentTile s)
  | .ENT => some (drawCurrentEnt s)
  | .PICK => drawSelectedEnt s

/-- Modelled from the spec: `drawMap` of `world/map.c` is not among the sources.
It belongs to the render pass, which only reads the entity store, the spatial
index and the tile grid; it is recorded as a render call. -/
def drawMap (s : Editor) : Editor :=
  s.emit (.render "drawMap")

/-- Modelled from the spec: `drawEntities` of `world/entities.c` is not among the
sources.  It belongs to the render pass, which only reads the entity store, the
spatial index and the tile grid; it is recorded as a render call. -/
def drawEntities (background : Int) (s : Editor) : Editor :=
  s.emit (.render (if background = 0 then "drawEntities(0)" else "drawEntities(1)"))

/-- The function `draw`. -/
def draw (collision : Collision) (fuel : Nat) (s : Editor) : Option Editor := do
  let s := drawMap s
  let s := drawEntities 0 s
  let s := drawEntities 1 s
  let s ← drawMode s
  drawInfo collision fuel s

/-! ## Choosing the stage to edit (`main`) -/

/-- The function `vector_max_except`; the vector is given by the list of its
`size` elements. -/
def vector_max_except (v : List Int) (exclude : Int) : Int :=
  -- int max = -1; for each element: if (data[i] != exclude && data[i] > max) max = data[i];
  v.foldl (fun max x => if x ≠ exclude ∧ x > max then x else max) (-1)

/-- The id `main` computes for "Clone as new Stage":
`max = vector_max_except(&stages, 999); newId = max + 1`. -/
def newId (stages : List Int) : Int :=
  vector_max_except stages 999 + 1

/-- The stage files present after the clone branch of `main`, by id:
`copy_file(src, dst)` opens `dst`, the file of `newId`, for writing (`"wb"`),
which creates it or replaces its contents by those of the chosen stage.
`overwritten` tells whether a file that existed before was replaced. -/
def cloneStage (stages : List Int) : List Int × Bool :=
  let dst := newId stages
  if dst ∈ stages then (stages, true) else (stages ++ [dst], false)

/-! ## Saving the tile grid, `_WIN32` variant -/

/-- Buffer state of the `_WIN32` variant of `saveMap`: the characters stored in
`buff` in front of the terminating NUL (`none` as long as nothing was written
into the `malloc`ed block), the variable `remaining`, and whether `goto done` was
taken from the truncation branch. -/
structure WinBuf where
  text : Option (List Char)
  remaining : Nat
  truncated : Bool

/-- The call `snprintf(ptr, remaining, "%d ", v)` with `remaining > 0`: the
characters it stores in front of the NUL, as many of the output as fit, and
its return value, the length of the whole output. -/
def snprintfCell (remaining : Nat) (v : Int) : List Char × Nat :=
  ((formatInt v ++ [' ']).take (remaining - 1), (formatInt v ++ [' ']).length)

/-- Inner loop of the `_WIN32` variant of `saveMap`, over the remaining `x` of
row `y`. -/
def saveMapWinRow (map : Int → Int → Int) (y : Nat) : List Nat → WinBuf → WinBuf
  | [], b => b
  | x :: xs, b =>
    -- written = snprintf(ptr, remaining, "%d ", stage.map[x][y]);
    let out := snprintfCell b.remaining (map (x : Int) (y : Int))
    let b := { b with text := some (b.text.getD [] ++ out.1) }
    -- if (written < 0 || (size_t)written >= remaining) { buff[bufsize - 1] = '\0'; goto done; }
    if out.2 ≥ b.remaining then { b with truncated := true }
    -- ptr += written; remaining -= written;
    else saveMapWinRow map y xs { b with remaining := b.remaining - out.2 }

/-- Outer loop of the `_WIN32` variant of `saveMap`; `goto done` leaves both
loops. -/
def saveMapWinRows (map : Int → Int → Int) (xs : List Nat) : List Nat → WinBuf → WinBuf
  | [], b => b
  | y :: ys, b =>
    let b := saveMapWinRow map y xs b
    if b.truncated then b else saveMapWinRows map xs ys b

/-- The buffer of the `_WIN32` variant of `saveMap` at the label `done`;
`malloc` is taken to succeed. -/
def saveMapWinBuf (d : Defs) (map : Int → Int → Int) : WinBuf :=
  -- bufsize = (MAP_WIDTH * MAP_HEIGHT * 12) + 1; ptr = buff; remaining = bufsize;
  saveMapWinRows map (List.range d.MAP_WIDTH.toNat) (List.range d.MAP_HEIGHT.toNat)
    { text := none, remaining := (d.MAP_WIDTH * d.MAP_HEIGHT * 12 + 1).toNat, truncated := false }

/-- The `_WIN32` variant of `saveMap`: adds the string in `buff` under `"map"`.
Reading `buff` when nothing was written into it is outside the model (`none`). -/
def saveMapWindows (d : Defs) (s : Editor) (root : List (String × JSON)) :
    Option (List (String × JSON)) :=
  (saveMapWinBuf d s.map).text.map fun t => root ++ [("map", JSON.str (String.mk t))]

/-! ## The loop of `main` -/

/-- The input state a frame starts with: pointer and keys. -/
structure Input where
  mouse : Mouse
  keyboard : Keyboard

/-- Modelled from the spec: `doInput` of `system/input.c` is not among the
sources.  It belongs to the platform input layer, which owns the input snapshot
(pointer position, buttons, keys); here it leaves `app.mouse` and `app.keyboard`
at the snapshot of the frame and touches nothing else. -/
def doInput (i : Input) (s : Editor) : Editor :=
  { s with mouse := i.mouse, keyboard := i.keyboard }

/-- The logic passes of successive frames: `doInput(); logic();` for every
input snapshot in turn. -/
def logicSteps (d : Defs) (ext : Extern) (fuel : Nat) : List Input → Editor → Option Editor
  | [], s => some s
  | i :: rest, s => do
    let s ← logic d ext fuel (doInput i s)
    logicSteps d ext fuel rest s

/-- The loop of `main`, one pass for every input snapshot:
`doInput(); logic(); draw();`.  The other calls of the loop (`prepareScene`,
`presentScene`, `capFrameRate`) do not touch the stage or the editor variables. -/
def frames (d : Defs) (ext : Extern) (fuel : Nat) : List Input → Editor → Option Editor
  | [], s => some s
  | i :: rest, s => do
    let s ← logic d ext fuel (doInput i s)
    let s ← draw ext.collision fuel s
    frames d ext fuel rest s

/-! ## Vocabulary of the statements -/

/-- The fields every entity record starts with: `type`, `x`, `y`, and `name`
exactly when the entity's name is not empty. -/
def recordHead (ent : Entity) : List (String × JSON) :=
  ("type", JSON.str ent.typeName) :: ("x", JSON.num ent.x) :: ("y", JSON.num ent.y) ::
    (if ent.name.length > 0 then [("name", JSON.str ent.name)] else [])

/-- The record `saveEntities` must produce for the entity at address `a`: an
object whose fields are the record head, handed to the entity's save callback
when it has one. -/
def IsRecordOf (callSave : CallSave) (s : Editor) (a : Addr) (r : JSON) : Prop :=
  ∃ ent fields, s.mem a = some ent ∧ r = JSON.obj fields ∧
    (ent.save = none → fields = recordHead ent) ∧
    (∀ f, ent.save = some f → fields = callSave f ent (recordHead ent))

/-- What the camera block of `logic` reads: the camera, the pan timer and the
four arrow keys. -/
def panInputs (s : Editor) : Int × Int × Int × Bool × Bool × Bool × Bool :=
  (s.cameraX, s.cameraY, s.cameraTimer, s.keyboard.up, s.keyboard.down, s.keyboard.left,
    s.keyboard.right)

/-- The effects `deleteEntity` is expected to record while it walks the entities `l` with
trailing pointer `prev`, read off the store before the call. -/
def deleteEffects (collision : Collision) (s : Editor) : Addr → List Addr → List Effect
  | _, [] => []
  | prev, a :: r =>
    match s.mem a with
    | some ent =>
      if underCursor collision s a then
        [Effect.setNext prev ent.next, Effect.removeFromQuadtree a ent.x ent.y ent.w ent.h]
          ++ (if ent.id ≠ -1 then [Effect.freeData a] else []) ++ [Effect.free a]
          ++ deleteEffects collision s prev r
      else deleteEffects collision s a r
    | none => []

/-- State after one deleting iteration of the loop of `deleteEntity` on entity
`a` (contents `ent`) with trailing pointer `prev` (contents `p`). -/
def afterDelete (s : Editor) (prev a : Addr) (p ent : Entity) : Editor :=
  { s with
    entityTail := if a = s.entityTail then prev else s.entityTail
    mem := Function.update (Function.update s.mem prev (some { p with next := ent.next })) a none
    effects := s.effects ++ ([Effect.setNext prev ent.next,
        Effect.removeFromQuadtree a ent.x ent.y ent.w ent.h]
      ++ (if ent.id ≠ -1 then [Effect.freeData a] else []) ++ [Effect.free a]) }

/-- Reading back the text of `"map"`: the value of a digit character. -/
def digitVal (c : Char) : Nat := c.toNat - 48

/-- Reading back the text of `"map"`: the number written by a run of decimal
digits, read left to right. -/
def parseNat (l : List Char) : Nat := l.foldl (fun a c => 10 * a + digitVal c) 0

/-- Reading back the text of `"map"`: a decimal integer with an optional
leading minus sign. -/
def parseInt : List Char → Int
  | '-' :: r => -(parseNat r : Int)
  | r => (parseNat r : Int)

/-- Reading back the text of `"map"`: splitting on spaces, `cur` being the
token under construction; empty tokens are dropped. -/
def splitSpacesAux (cur : List Char) : List Char → List (List Char)
  | [] => if cur = [] then [] else [cur]
  | c :: cs =>
    if c = ' ' then (if cur = [] then splitSpacesAux [] cs else cur :: splitSpacesAux [] cs)
    else splitSpacesAux (cur ++ [c]) cs

/-- The tokens of a text, separated by spaces. -/
def splitSpaces (l : List Char) : List (List Char) := splitSpacesAux [] l

/-- Whether an effect is a call into the spatial index. -/
def Effect.isQuadtreeCall : Effect → Bool
  | .removeFromQuadtree _ _ _ _ _ => true
  | .addToQuadtree _ _ _ _ _ => true
  | _ => false

/-- The picked-entity reference is unset or refers to an entity that is linked
in the entity store. -/
def PickLinked (s : Editor) : Prop :=
  ∀ a, s.selectedEntity = some a → ∃ l, Store s l ∧ a ∈ l

/-- The states the logic passes reach from `s0`. -/
def Reachable (d : Defs) (ext : Extern) (fuel : Nat) (s0 s : Editor) : Prop :=
  ∃ inputs, logicSteps d ext fuel inputs s0 = some s

/-! ## Sample data -/

/-- Modelled from the spec: `collision` of `system/util.c` (not among the
sources) as the overlap test of two axis-aligned rectangles taken half-open,
`[x, x+w)` by `[y, y+h)`.  Used for the sample runs only. -/
def boxCollision : Collision := fun x1 y1 w1 h1 x2 y2 w2 h2 =>
  decide (max x1 x2 < min (x1 + w1) (x2 + w2)) && decide (max y1 y2 < min (y1 + h1) (y2 + h2))

/-- An entity of the given type, position and link; 32 by 32, loaded from a
file (`id` 7). -/
def sampleEntity (typeName : String) (x y : Int) (data : Payload) (next : Option Addr) : Entity :=
  { id := 7, type := 0, typeName := typeName, name := "", x := x, y := y, w := 32, h := 32,
    facing := 0, flags := 0, data := data, save := none, next := next }

/-- A store of three entities at addresses 1, 2, 3: a manhole cover at (0, 0),
a platform at (16, 16) overlapping it, and a manhole cover at (200, 0). -/
def sampleMem : Addr → Option Entity := fun a =>
  if a = 0 then some (sampleEntity "" 0 0 (.other []) (some 1))
  else if a = 1 then some (sampleEntity "manholeCover" 0 0 (.other []) (some 2))
  else if a = 2 then some (sampleEntity "platform" 16 16 (.platform ⟨16, 16, []⟩) (some 3))
  else if a = 3 then some (sampleEntity "manholeCover" 200 0 (.other []) none)
  else none

/-- An editor state over `sampleMem`: ENTITY mode, cursor at (20, 20), camera at
the origin, nothing picked. -/
def sampleEditor : Editor :=
  { mem := sampleMem, entityTail := 3, map := fun _ _ => 0, tiles := fun i => decide (i = 1),
    cameraX := 0, cameraY := 0, num := 1, cloneLimit := 0, timeLimit := 3600, tips := [],
    mouse := ⟨20, 20, false, false, false, false⟩,
    keyboard := ⟨false, false, false, false, false, false, false, false⟩,
    tile := 1, cameraTimer := 0, entities := [], entIndex := 0,
    entity := sampleEntity "manholeCover" 0 0 (.other []) none,
    selectedEntity := none, mode := .ENT, self := none, brk := 4, effects := [] }

/-- Sample constants: a 40 by 20 map of 48-pixel tiles on a 1280 by 720 screen. -/
def sampleDefs : Defs :=
  { MAP_WIDTH := 40, MAP_HEIGHT := 20, TILE_SIZE := 48, SCREEN_WIDTH := 1280,
    SCREEN_HEIGHT := 720, MAX_TILES := 8 }

/-- Sample external code: the box collision test, a factory that builds the
sample entity of the given type, save callbacks that add nothing. -/
def sampleExtern : Extern :=
  { collision := boxCollision
    init := fun t => sampleEntity t 0 0 (.other []) none
    callSave := fun _ _ o => o }

/-- The sample store with the platform at address 2 picked, in PICK mode, with
the cursor at (101, 57) and the camera at (48, 0). -/
def pickedEditor : Editor :=
  { sampleEditor with
    selectedEntity := some 2, mode := .PICK, cameraX := 48,
    mouse := ⟨101, 57, false, false, false, false⟩ }

/-- The sample editor with the camera at the largest offset the camera block
allows for `sampleDefs`, (624, 240), and the right and down arrows held. -/
def panEditor : Editor :=
  { sampleEditor with
    cameraX := 624, cameraY := 240
    keyboard := ⟨false, false, false, false, false, true, false, true⟩ }

/-- The sample editor with the camera at the largest offset that keeps the
screen inside the map of `sampleDefs`, (640, 240), and the right and down arrows
held: 640 + 1280 = 40 * 48. -/
def edgeEditor : Editor :=
  { panEditor with cameraX := 640 }

/-- Sample constants with a 3 by 2 map. -/
def smallDefs : Defs :=
  { sampleDefs with MAP_WIDTH := 3, MAP_HEIGHT := 2 }

/-- The sample editor with a grid that holds the two extreme 32-bit values:
`INT_MIN` in column 0, `INT_MAX` in column 1, `x + y` elsewhere. -/
def extremeEditor : Editor :=
  { sampleEditor with
    map := fun x y => if x = 0 then -2147483648 else if x = 1 then 2147483647 else x + y }

/-- The state in which `main` enters its loop when the stage file holds the
three sample entities: TILE mode, tile 1, `cameraTimer` 0, nothing picked,
camera at the origin. -/
def initialEditor : Editor :=
  { sampleEditor with mode := .TILE, mouse := ⟨0, 0, false, false, false, false⟩ }

/-- An input snapshot with the cursor at (5, 5), over the manhole cover at
address 1 only, and nothing pressed. -/
def idleInput : Input :=
  { mouse := ⟨5, 5, false, false, false, false⟩,
    keyboard := ⟨false, false, false, false, false, false, false, false⟩ }

/-- Key `3` goes down, cursor at (5, 5). -/
def key3Input : Input :=
  { idleInput with keyboard := { idleInput.keyboard with k3 := true } }

/-- Key `2` goes down, cursor at (5, 5). -/
def key2Input : Input :=
  { idleInput with keyboard := { idleInput.keyboard with k2 := true } }

/-- The primary button goes down, cursor at (5, 5). -/
def leftInput : Input :=
  { idleInput with mouse := { idleInput.mouse with left := true } }

/-- The secondary button goes down, cursor at (5, 5). -/
def rightInput : Input :=
  { idleInput with mouse := { idleInput.mouse with right := true } }

/-- Four frames with the cursor at (5, 5): key `3` (PICK mode), primary button
(picks the entity at address 1), key `2` (ENTITY mode), secondary button
(deletes the entity at address 1). -/
def danglingInputs : List Input :=
  [key3Input, leftInput, key2Input, rightInput]

/-! # Properties -/

/-! ## Lemmas on the entity store -/

theorem Chain.congr {mem mem' : Addr → Option Entity} {l : List Addr} :
    ∀ {st : Option Addr}, (∀ a ∈ l, mem' a = mem a) → Chain mem st l → Chain mem' st l := by
  induction l with
  | nil => intro st _ h; exact h
  | cons a l ih =>
    intro st hm h
    obtain ⟨h1, ent, h2, h3⟩ := h
    refine ⟨h1, ent, ?_, ih (fun b hb => hm b (List.mem_cons_of_mem _ hb)) h3⟩
    rw [hm a (List.mem_cons_self _ _)]; exact h2

theorem underCursor_congr (collision : Collision) {s t : Editor} {a : Addr}
    (hm : t.mem a = s.mem a) (hmouse : t.mouse = s.mouse) (hx : t.cameraX = s.cameraX)
    (hy : t.cameraY = s.cameraY) : underCursor collision t a = underCursor collision s a := by
  simp [underCursor, hm, hmouse, hx, hy]

theorem filter_underCursor_congr (collision : Collision) {s t : Editor} {l : List Addr}
    (hm : ∀ a ∈ l, t.mem a = s.mem a) (hmouse : t.mouse = s.mouse) (hx : t.cameraX = s.cameraX)
    (hy : t.cameraY = s.cameraY) :
    l.filter (fun a => !underCursor collision t a) = l.filter (fun a => !underCursor collision s a) := by
  apply List.filter_congr
  intro a ha
  rw [underCursor_congr collision (hm a ha) hmouse hx hy]

theorem deleteEffects_congr (collision : Collision) {s t : Editor}
    (hmouse : t.mouse = s.mouse) (hx : t.cameraX = s.cameraX) (hy : t.cameraY = s.cameraY) :
    ∀ (l : List Addr) (prev : Addr), (∀ a ∈ l, t.mem a = s.mem a) →
      deleteEffects collision t prev l = deleteEffects collision s prev l := by
  intro l
  induction l with
  | nil => intro _ _; rfl
  | cons a r ih =>
    intro prev hm
    have ha := hm a (List.mem_cons_self _ _)
    have hr : ∀ b ∈ r, t.mem b = s.mem b := fun b hb => hm b (List.mem_cons_of_mem _ hb)
    simp only [deleteEffects, ha, underCursor_congr collision ha hmouse hx hy, ih _ hr]

theorem lastOr_mem_of_ne_nil (d : Addr) (l : List Addr) (h : l ≠ []) : lastOr d l ∈ l := by
  induction l generalizing d with
  | nil => exact absurd rfl h
  | cons a r ih =>
    cases r with
    | nil => simp [lastOr]
    | cons b t =>
      have := ih a (by simp)
      simp only [lastOr] at this ⊢
      exact List.mem_cons_of_mem _ this

theorem deleteEntityLoop_hit (collision : Collision) (f : Nat) (prev a : Addr) (s : Editor)
    (p ent : Entity) (hp : s.mem prev = some p) (hent : s.mem a = some ent) (hpa : prev ≠ a)
    (hc : collision (s.mouse.x + s.cameraX) (s.mouse.y + s.cameraY) 1 1 ent.x ent.y ent.w ent.h
      = true) :
    deleteEntityLoop collision (f + 1) prev (some a) s
      = deleteEntityLoop collision f prev ent.next (afterDelete s prev a p ent) := by
  have hap : a ≠ prev := Ne.symm hpa
  have hs1 : (if a = s.entityTail then ({ s with entityTail := prev } : Editor) else s)
      = { s with entityTail := if a = s.entityTail then prev else s.entityTail } := by
    split <;> rfl
  by_cases hid : ent.id = -1
  all_goals
    simp only [deleteEntityLoop, hent, hc, Option.bind_eq_bind, Option.some_bind, if_true, hs1, hp,
      Editor.store, Editor.emit, Function.update_noteq hap, Function.update_same,
      Function.update_noteq hpa, hid, ne_eq, not_true_eq_false,
      not_false_eq_true, if_false, afterDelete, List.append_assoc, List.cons_append,
      List.nil_append, List.append_nil]

theorem deleteEntityLoop_spec (collision : Collision) :
    ∀ (rest : List Addr) (fuel : Nat) (prev : Addr) (s : Editor) (p : Entity),
      s.mem prev = some p → Chain s.mem p.next rest → (prev :: rest).Nodup →
      rest.length ≤ fuel → (rest ≠ [] → s.entityTail = lastOr prev rest) →
      ∃ s' p', deleteEntityLoop collision fuel prev p.next s = some s' ∧
        s'.mem prev = some p' ∧ p' = { p with next := p'.next } ∧
        Chain s'.mem p'.next (rest.filter fun a => !underCursor collision s a) ∧
        (∀ a, a ∉ prev :: rest → s'.mem a = s.mem a) ∧
        (∀ a ∈ rest, underCursor collision s a = true → s'.mem a = none) ∧
        (∀ a ∈ rest, underCursor collision s a = false →
            ∃ e e', s.mem a = some e ∧ s'.mem a = some e' ∧ e' = { e with next := e'.next }) ∧
        s'.entityTail = (if rest = [] then s.entityTail
          else lastOr prev (rest.filter fun a => !underCursor collision s a)) ∧
        s'.effects = s.effects ++ deleteEffects collision s prev rest ∧
        s' = { s with mem := s'.mem, entityTail := s'.entityTail, effects := s'.effects } := by
  intro rest
  induction rest with
  | nil =>
    intro fuel prev s p hp hch _ _ _
    have hn : p.next = none := hch
    refine ⟨s, p, ?_, hp, ?_, ?_, ?_, ?_, ?_, ?_, ?_, ?_⟩
    · rw [hn]; cases fuel <;> rfl
    · rfl
    · simpa [Chain] using hn
    · intro a _; rfl
    · intro a ha; simp at ha
    · intro a ha; simp at ha
    · simp
    · simp [deleteEffects]
    · rfl
  | cons a r ih =>
    intro fuel prev s p hp hch hnd hfuel htail
    obtain ⟨hnext, ent, hent, hchr⟩ := hch
    obtain ⟨f, rfl⟩ : ∃ f, fuel = f + 1 := ⟨fuel - 1, by simp at hfuel; omega⟩
    have hf : r.length ≤ f := by simp at hfuel; omega
    have hpa : prev ≠ a := by
      intro h; simp [h] at hnd
    have hpr : prev ∉ r := by
      intro h; simp [h] at hnd
    have har : a ∉ r := by
      intro h
      have := (List.nodup_cons.mp (List.nodup_cons.mp hnd).2).1
      exact this h
    have hrnd : r.Nodup := (List.nodup_cons.mp (List.nodup_cons.mp hnd).2).2
    have htl : s.entityTail = lastOr prev (a :: r) := htail (by simp)
    by_cases hit : underCursor collision s a = true
    · -- the entity is deleted
      have hc : collision (s.mouse.x + s.cameraX) (s.mouse.y + s.cameraY) 1 1 ent.x ent.y ent.w ent.h
          = true := by simpa [underCursor, hent] using hit
      have hstep := deleteEntityLoop_hit collision f prev a s p ent hp hent hpa hc
      have hmouse : (afterDelete s prev a p ent).mouse = s.mouse := rfl
      have hmem5 : ∀ b ∈ r, (afterDelete s prev a p ent).mem b = s.mem b := by
        intro b hb
        have hb1 : b ≠ a := fun h => har (h ▸ hb)
        have hb2 : b ≠ prev := fun h => hpr (h ▸ hb)
        simp [afterDelete, Function.update, hb1, hb2]
      have hprev5 : (afterDelete s prev a p ent).mem prev = some { p with next := ent.next } := by
        simp [afterDelete, Function.update, hpa]
      obtain ⟨s', p', hrun, hme, hfe, hchain, hout, hdel, hkeep, htail', heff, hframe⟩ :=
        ih f prev (afterDelete s prev a p ent) { p with next := ent.next } hprev5
          (Chain.congr hmem5 hchr) (List.nodup_cons.mpr ⟨hpr, hrnd⟩) hf
          (fun hne => by
            have h1 : s.entityTail = lastOr a r := htl
            have h2 : lastOr a r ∈ r := lastOr_mem_of_ne_nil a r hne
            have h3 : a ≠ lastOr a r := fun h => har (by rw [h]; exact h2)
            have h4 : lastOr prev r = lastOr a r := by
              cases r with
              | nil => exact absurd rfl hne
              | cons b t => rfl
            simp [afterDelete, h3, h4, h1])
      have hfil := filter_underCursor_congr collision hmem5 hmouse rfl rfl
      rw [hfil] at hchain htail'
      refine ⟨s', p', ?_, hme, ?_, ?_, ?_, ?_, ?_, ?_, ?_, ?_⟩
      · rw [hnext, hstep]; exact hrun
      · rw [hfe]
      · rw [List.filter_cons_of_neg (by simp [hit])]
        exact hchain
      · intro b hb
        simp only [List.mem_cons, not_or] at hb
        rw [hout b (by simp [hb.1, hb.2.2])]
        simp [afterDelete, Function.update, hb.1, hb.2.1]
      · intro b hb hbhit
        rcases List.mem_cons.mp hb with rfl | hb
        · rw [hout b (by simp [Ne.symm hpa, har])]
          simp [afterDelete, Function.update]
        · apply hdel b hb
          rw [underCursor_congr collision (hmem5 b hb) hmouse rfl rfl]; exact hbhit
      · intro b hb hbhit
        rcases List.mem_cons.mp hb with rfl | hb
        · rw [hit] at hbhit; cases hbhit
        · obtain ⟨e, e', h1, h2, h3⟩ := hkeep b hb (by
            rw [underCursor_congr collision (hmem5 b hb) hmouse rfl rfl]; exact hbhit)
          exact ⟨e, e', by rw [← hmem5 b hb]; exact h1, h2, h3⟩
      · rw [htail', List.filter_cons_of_neg (by simp [hit])]
        simp only [reduceCtorEq, if_false]
        cases r with
        | nil =>
          have : s.entityTail = a := htl
          simp [afterDelete, this, lastOr]
        | cons b t => simp
      · rw [heff, deleteEffects_congr collision hmouse rfl rfl r prev hmem5]
        simp [deleteEffects, hent, hit, afterDelete, List.append_assoc]
      · rw [hframe]
        simp [afterDelete]
    · -- the entity stays
      have hit' : underCursor collision s a = false := by simpa using hit
      have hc : collision (s.mouse.x + s.cameraX) (s.mouse.y + s.cameraY) 1 1 ent.x ent.y ent.w ent.h
          = false := by simpa [underCursor, hent] using hit'
      obtain ⟨s', e', hrun, hme, hfe, hchain, hout, hdel, hkeep, htail', heff, hframe⟩ :=
        ih f a s ent hent hchr (List.nodup_cons.mpr ⟨har, hrnd⟩) hf
          (fun hne => by rw [htl]; cases r with
            | nil => exact absurd rfl hne
            | cons b t => rfl)
      have hprev' : s'.mem prev = some p := by
        rw [hout prev (by simp [hpa, hpr])]; exact hp
      refine ⟨s', p, ?_, hprev', rfl, ?_, ?_, ?_, ?_, ?_, ?_, hframe⟩
      · rw [hnext]
        simp only [deleteEntityLoop, hent, hc, Option.bind_eq_bind, Option.some_bind]
        simpa using hrun
      · rw [List.filter_cons_of_pos (by simp [hit'])]
        exact ⟨hnext, e', hme, hchain⟩
      · intro b hb
        apply hout
        simp only [List.mem_cons, not_or] at hb ⊢
        exact ⟨hb.2.1, hb.2.2⟩
      · intro b hb hbhit
        rcases List.mem_cons.mp hb with rfl | hb
        · rw [hit'] at hbhit; cases hbhit
        · exact hdel b hb hbhit
      · intro b hb hbhit
        rcases List.mem_cons.mp hb with rfl | hb
        · exact ⟨ent, e', hent, hme, hfe⟩
        · exact hkeep b hb hbhit
      · rw [htail', List.filter_cons_of_pos (by simp [hit'])]
        simp only [reduceCtorEq, if_false]
        cases r with
        | nil => simp [htl, lastOr]
        | cons b t => simp [lastOr]
      · rw [heff]
        simp [deleteEffects, hent, hit']

theorem sampleEditor_store : Store sampleEditor [1, 2, 3] :=
  ⟨⟨_, rfl, rfl, _, rfl, rfl, _, rfl, rfl, _, rfl, rfl⟩, by decide, by decide, rfl⟩

/-- C1: on a well-formed entity store holding the entities `l`, `deleteEntity`
returns, and afterwards the store holds exactly the entities of `l` that are
not under the cursor, in their original order, with `entityTail` at the last of
them or at the sentinel head when none is left; the survivors keep all their
fields but the link, and the deleted entities are freed. -/
theorem deleteEntity_removes_colliding (collision : Collision) (s : Editor) (l : List Addr)
    (fuel : Nat) (hs : Store s l) (hfuel : l.length ≤ fuel) :
    ∃ s', deleteEntity collision fuel s = some s' ∧
      Store s' (l.filter fun a => !underCursor collision s a) ∧
      s'.entityTail = lastOr 0 (l.filter fun a => !underCursor collision s a) ∧
      (∀ a ∈ l, underCursor collision s a = false →
        ∃ e e', s.mem a = some e ∧ s'.mem a = some e' ∧ e' = { e with next := e'.next }) ∧
      (∀ a ∈ l, underCursor collision s a = true → s'.mem a = none) := by
  obtain ⟨hd, hhd, hch⟩ := hs.chain
  obtain ⟨s', p', hrun, hme, _, hchain, _, hdel, hkeep, htail, _, _⟩ :=
    deleteEntityLoop_spec collision l fuel 0 s hd hhd hch
      (List.nodup_cons.mpr ⟨hs.nohead, hs.nodup⟩) hfuel (fun _ => hs.tail)
  have htl : s'.entityTail = lastOr 0 (l.filter fun a => !underCursor collision s a) := by
    rw [htail]
    split
    · next h => rw [hs.tail, h]; rfl
    · rfl
  refine ⟨s', ?_, ⟨⟨p', hme, hchain⟩, hs.nodup.filter _, ?_, htl⟩, htl, hkeep, hdel⟩
  · simp [deleteEntity, hhd, hrun]
  · intro h
    exact hs.nohead (List.mem_of_mem_filter h)

theorem deleteEntity_removes_colliding_witness :
    Store sampleEditor [1, 2, 3] ∧ [1, 2, 3].length ≤ 3 ∧
    ∃ s', deleteEntity boxCollision 3 sampleEditor = some s' ∧
      Store s' ([1, 2, 3].filter fun a => !underCursor boxCollision sampleEditor a) ∧
      s'.entityTail = lastOr 0 ([1, 2, 3].filter fun a => !underCursor boxCollision sampleEditor a) ∧
      (∀ a ∈ [1, 2, 3], underCursor boxCollision sampleEditor a = false →
        ∃ e e', sampleEditor.mem a = some e ∧ s'.mem a = some e' ∧ e' = { e with next := e'.next }) ∧
      (∀ a ∈ [1, 2, 3], underCursor boxCollision sampleEditor a = true → s'.mem a = none) :=
  ⟨sampleEditor_store, by decide,
    deleteEntity_removes_colliding boxCollision sampleEditor [1, 2, 3] 3 sampleEditor_store (by decide)⟩

theorem Chain.congr_next {mem mem' : Addr → Option Entity} {l : List Addr} :
    ∀ {st : Option Addr},
      (∀ a ∈ l, ∀ e, mem a = some e → ∃ e', mem' a = some e' ∧ e'.next = e.next) →
      Chain mem st l → Chain mem' st l := by
  induction l with
  | nil => intro st _ h; exact h
  | cons a l ih =>
    intro st hm h
    obtain ⟨h1, ent, h2, h3⟩ := h
    obtain ⟨e', h4, h5⟩ := hm a (List.mem_cons_self _ _) ent h2
    exact ⟨h1, e', h4, h5 ▸ ih (fun b hb => hm b (List.mem_cons_of_mem _ hb)) h3⟩

theorem Store.of_same_links {s s' : Editor} {l : List Addr} (hs : Store s l)
    (hm : ∀ a e, s.mem a = some e → ∃ e', s'.mem a = some e' ∧ e'.next = e.next)
    (ht : s'.entityTail = s.entityTail) : Store s' l := by
  obtain ⟨hd, hhd, hch⟩ := hs.chain
  obtain ⟨hd', hhd', hn⟩ := hm 0 hd hhd
  exact ⟨⟨hd', hhd', hn ▸ Chain.congr_next (fun a _ e he => hm a e he) hch⟩, hs.nodup, hs.nohead,
    ht.trans hs.tail⟩

/-- C2: with an entity picked, `toggleSelectEntity` returns; it records
`removeFromQuadtree` of the entity at its old box, the writes of
x = (mouse.x / 8) * 8 + camera.x and y = (mouse.y / 8) * 8 + camera.y, then
`addToQuadtree` of the entity at the new position, in this order; a platform
gets the new x, y as `sx`, `sy`; the pick is cleared; every other entity, the
links and `entityTail` are unchanged. -/
theorem toggleSelectEntity_places (collision : Collision) (fuel : Nat) (s : Editor) (sel : Addr)
    (ent : Entity) (hsel : s.selectedEntity = some sel) (hent : s.mem sel = some ent)
    (hdata : ent.typeName = "platform" → ∃ p, ent.data = Payload.platform p) :
    ∃ s' ent', toggleSelectEntity collision fuel s = some s' ∧
      s'.mem sel = some ent' ∧
      ent'.x = (s.mouse.x.tdiv 8) * 8 + s.cameraX ∧
      ent'.y = (s.mouse.y.tdiv 8) * 8 + s.cameraY ∧
      s'.effects = s.effects ++
        [Effect.removeFromQuadtree sel ent.x ent.y ent.w ent.h,
         Effect.setX sel ((s.mouse.x.tdiv 8) * 8 + s.cameraX),
         Effect.setY sel ((s.mouse.y.tdiv 8) * 8 + s.cameraY),
         Effect.addToQuadtree sel ((s.mouse.x.tdiv 8) * 8 + s.cameraX)
           ((s.mouse.y.tdiv 8) * 8 + s.cameraY) ent.w ent.h] ∧
      (∀ p, ent.typeName = "platform" → ent.data = Payload.platform p →
        ent' = { ent with x := ent'.x, y := ent'.y,
                          data := Payload.platform { p with sx := ent'.x, sy := ent'.y } }) ∧
      (ent.typeName ≠ "platform" → ent' = { ent with x := ent'.x, y := ent'.y }) ∧
      s'.selectedEntity = none ∧
      (∀ a, a ≠ sel → s'.mem a = s.mem a) ∧
      s'.entityTail = s.entityTail ∧
      (∀ l, Store s l → Store s' l) ∧
      s' = { s with mem := s'.mem, effects := s'.effects, selectedEntity := none } := by
  obtain ⟨ent', hrun, hx, hy, hn, h1, h2⟩ : ∃ ent' : Entity,
      toggleSelectEntity collision fuel s = some { s with
        mem := Function.update s.mem sel (some ent')
        effects := s.effects ++
          [Effect.removeFromQuadtree sel ent.x ent.y ent.w ent.h,
           Effect.setX sel ((s.mouse.x.tdiv 8) * 8 + s.cameraX),
           Effect.setY sel ((s.mouse.y.tdiv 8) * 8 + s.cameraY),
           Effect.addToQuadtree sel ((s.mouse.x.tdiv 8) * 8 + s.cameraX)
             ((s.mouse.y.tdiv 8) * 8 + s.cameraY) ent.w ent.h]
        selectedEntity := none } ∧
      ent'.x = (s.mouse.x.tdiv 8) * 8 + s.cameraX ∧
      ent'.y = (s.mouse.y.tdiv 8) * 8 + s.cameraY ∧
      ent'.next = ent.next ∧
      (∀ p, ent.typeName = "platform" → ent.data = Payload.platform p →
        ent' = { ent with x := ent'.x, y := ent'.y,
                          data := Payload.platform { p with sx := ent'.x, sy := ent'.y } }) ∧
      (ent.typeName ≠ "platform" → ent' = { ent with x := ent'.x, y := ent'.y }) := by
    by_cases hp : ent.typeName = "platform"
    · obtain ⟨p, hpd⟩ := hdata hp
      refine ⟨{ ent with x := (s.mouse.x.tdiv 8) * 8 + s.cameraX,
                         y := (s.mouse.y.tdiv 8) * 8 + s.cameraY,
                         data := Payload.platform { p with
                           sx := (s.mouse.x.tdiv 8) * 8 + s.cameraX,
                           sy := (s.mouse.y.tdiv 8) * 8 + s.cameraY } }, ?_, rfl, rfl, rfl, ?_, ?_⟩
      · simp [toggleSelectEntity, hsel, hent, Editor.emit, Editor.store, hp, hpd]
      · intro q _ hq
        rw [hpd] at hq
        cases hq
        rfl
      · intro h; exact absurd hp h
    · refine ⟨{ ent with x := (s.mouse.x.tdiv 8) * 8 + s.cameraX,
                         y := (s.mouse.y.tdiv 8) * 8 + s.cameraY }, ?_, rfl, rfl, rfl, ?_, ?_⟩
      · simp [toggleSelectEntity, hsel, hent, Editor.emit, Editor.store, hp]
      · intro q h; exact absurd h hp
      · intro _; rfl
  refine ⟨_, ent', hrun, ?_, hx, hy, rfl, h1, h2, rfl, ?_, rfl, ?_, rfl⟩
  · simp
  · intro a ha; simp [Function.update, ha]
  · intro l hl
    refine hl.of_same_links ?_ rfl
    intro a e he
    by_cases ha : a = sel
    · subst ha
      rw [hent] at he
      cases he
      exact ⟨ent', by simp, hn⟩
    · exact ⟨e, by simpa [Function.update, ha] using he, rfl⟩

theorem toggleSelectEntity_places_witness :
    pickedEditor.selectedEntity = some 2 ∧
    pickedEditor.mem 2 = some (sampleEntity "platform" 16 16 (.platform ⟨16, 16, []⟩) (some 3)) ∧
    ∃ s' ent', toggleSelectEntity boxCollision 0 pickedEditor = some s' ∧
      s'.mem 2 = some ent' ∧ ent'.x = 144 ∧ ent'.y = 56 ∧
      ent'.data = Payload.platform ⟨144, 56, []⟩ ∧ s'.selectedEntity = none := by
  refine ⟨rfl, rfl, ?_⟩
  obtain ⟨s', ent', h1, h2, h3, h4, _, h6, _, h8, _⟩ :=
    toggleSelectEntity_places boxCollision 0 pickedEditor 2
      (sampleEntity "platform" 16 16 (.platform ⟨16, 16, []⟩) (some 3)) rfl rfl
      (fun _ => ⟨_, rfl⟩)
  refine ⟨s', ent', h1, h2, h3, h4, ?_, h8⟩
  have h := h6 ⟨16, 16, []⟩ rfl rfl
  rw [h, h3, h4]
  rfl

theorem toggleSelectLoop_spec (collision : Collision) (s : Editor) :
    ∀ (rest : List Addr) (fuel : Nat) (st : Option Addr),
      Chain s.mem st rest → rest.length ≤ fuel →
      toggleSelectLoop collision fuel st s =
        some (match rest.find? (underCursor collision s) with
          | some a => { s with selectedEntity := some a }
          | none => s) := by
  intro rest
  induction rest with
  | nil =>
    intro fuel st hch _
    have : st = none := hch
    subst this
    cases fuel <;> rfl
  | cons a r ih =>
    intro fuel st hch hfuel
    obtain ⟨rfl, ent, hent, hchr⟩ := hch
    obtain ⟨f, rfl⟩ : ∃ f, fuel = f + 1 := ⟨fuel - 1, by simp at hfuel; omega⟩
    have hf : r.length ≤ f := by simp at hfuel; omega
    by_cases hit : underCursor collision s a = true
    · have hc : collision (s.mouse.x + s.cameraX) (s.mouse.y + s.cameraY) 1 1 ent.x ent.y ent.w ent.h
          = true := by simpa [underCursor, hent] using hit
      simp [toggleSelectLoop, hent, hc, List.find?, hit]
    · have hit' : underCursor collision s a = false := by simpa using hit
      have hc : collision (s.mouse.x + s.cameraX) (s.mouse.y + s.cameraY) 1 1 ent.x ent.y ent.w ent.h
          = false := by simpa [underCursor, hent] using hit'
      simp only [toggleSelectLoop, hent, hc, Option.bind_eq_bind, Option.some_bind, List.find?, hit']
      simpa using ih f ent.next hchr hf

/-- C3: with nothing picked, on a well-formed entity store holding the entities
`l`, `toggleSelectEntity` returns the same state except that `selectedEntity`
is the first entity of `l` (store order) under the cursor, or still unset when
there is none: the store, every field of every entity and the recorded effects
(so the spatial index) are unchanged. -/
theorem toggleSelectEntity_picks_first (collision : Collision) (s : Editor) (l : List Addr)
    (fuel : Nat) (hs : Store s l) (hfuel : l.length ≤ fuel) (hnone : s.selectedEntity = none) :
    toggleSelectEntity collision fuel s =
      some { s with selectedEntity := l.find? (underCursor collision s) } := by
  obtain ⟨hd, hhd, hch⟩ := hs.chain
  have h := toggleSelectLoop_spec collision s l fuel hd.next hch hfuel
  simp only [toggleSelectEntity, hnone, hhd, Option.bind_eq_bind, Option.some_bind, h]
  cases hfind : l.find? (underCursor collision s) with
  | some a => rfl
  | none =>
    simp only
    congr 1
    cases s
    simp at hnone ⊢
    exact hnone

theorem toggleSelectEntity_picks_first_witness :
    Store sampleEditor [1, 2, 3] ∧ [1, 2, 3].length ≤ 3 ∧ sampleEditor.selectedEntity = none ∧
    toggleSelectEntity boxCollision 3 sampleEditor =
      some { sampleEditor with
        selectedEntity := [1, 2, 3].find? (underCursor boxCollision sampleEditor) } ∧
    [1, 2, 3].find? (underCursor boxCollision sampleEditor) = some 1 :=
  ⟨sampleEditor_store, by decide, rfl,
    toggleSelectEntity_picks_first boxCollision sampleEditor [1, 2, 3] 3 sampleEditor_store
      (by decide) rfl, by decide⟩

theorem cycleTile_steps (d : Defs) (dir : Int) (hM : 0 < d.MAX_TILES)
    (hw : ∀ t : Int, 0 ≤ t → t < d.MAX_TILES →
      (if t + dir < 0 then d.MAX_TILES - 1 else if t + dir ≥ d.MAX_TILES then 0 else t + dir)
        = (t + dir) % d.MAX_TILES) :
    ∀ (k : Nat) (s : Editor) (fuel : Nat), 1 ≤ k → k ≤ fuel →
      0 ≤ s.tile → s.tile < d.MAX_TILES →
      s.tiles ((s.tile + dir * k) % d.MAX_TILES) = true →
      (∀ j : Nat, 1 ≤ j → j < k → s.tiles ((s.tile + dir * j) % d.MAX_TILES) = false) →
      cycleTile d dir fuel s = some { s with tile := (s.tile + dir * k) % d.MAX_TILES } := by
  intro k
  induction k with
  | zero => intro s fuel h; omega
  | succ k ih =>
    intro s fuel _ hfuel h0 h1 hset hunset
    obtain ⟨f, rfl⟩ : ∃ f, fuel = f + 1 := ⟨fuel - 1, by omega⟩
    have hstep := hw s.tile h0 h1
    by_cases hk : k = 0
    · subst hk
      simp only [Nat.zero_add, Nat.cast_one, mul_one] at hset
      simp only [cycleTile, hstep, hset, if_true, Nat.zero_add, Nat.cast_one, mul_one]
    · have hfirst : s.tiles ((s.tile + dir) % d.MAX_TILES) = false := by
        have := hunset 1 (le_refl 1) (by omega)
        simpa using this
      have hmod : ∀ j : Nat, ((s.tile + dir) % d.MAX_TILES + dir * j) % d.MAX_TILES
          = (s.tile + dir * ((j + 1 : Nat) : Int)) % d.MAX_TILES := by
        intro j
        rw [Int.emod_add_emod]
        congr 1
        push_cast
        ring
      have h := ih { s with tile := (s.tile + dir) % d.MAX_TILES } f (by omega) (by omega)
        (Int.emod_nonneg _ (ne_of_gt hM)) (Int.emod_lt_of_pos _ hM)
        (by simpa only [hmod] using hset)
        (by
          intro j hj1 hj2
          have := hunset (j + 1) (by omega) (by omega)
          simpa only [hmod] using this)
      simp only [cycleTile, hstep, hfirst, Bool.false_eq_true, if_false]
      rw [h]
      simp only [hmod]

theorem cycleTile_find (d : Defs) (dir : Int) (hM : 0 < d.MAX_TILES) (hdir : dir * dir = 1)
    (hw : ∀ t : Int, 0 ≤ t → t < d.MAX_TILES →
      (if t + dir < 0 then d.MAX_TILES - 1 else if t + dir ≥ d.MAX_TILES then 0 else t + dir)
        = (t + dir) % d.MAX_TILES)
    (s : Editor) (fuel : Nat) (h0 : 0 ≤ s.tile) (h1 : s.tile < d.MAX_TILES)
    (hset : ∃ i, 0 ≤ i ∧ i < d.MAX_TILES ∧ s.tiles i = true)
    (hfuel : d.MAX_TILES.toNat ≤ fuel) :
    ∃ k : Nat, 1 ≤ k ∧ (k : Int) ≤ d.MAX_TILES ∧
      cycleTile d dir fuel s = some { s with tile := (s.tile + dir * k) % d.MAX_TILES } ∧
      s.tiles ((s.tile + dir * k) % d.MAX_TILES) = true ∧
      (∀ j : Nat, 1 ≤ j → j < k → s.tiles ((s.tile + dir * j) % d.MAX_TILES) = false) := by
  obtain ⟨i, hi0, hi1, hi⟩ := hset
  have hex : ∃ k : Nat, 1 ≤ k ∧ s.tiles ((s.tile + dir * k) % d.MAX_TILES) = true := by
    refine ⟨((dir * (i - s.tile) - 1) % d.MAX_TILES).toNat + 1, by omega, ?_⟩
    have hnn : 0 ≤ (dir * (i - s.tile) - 1) % d.MAX_TILES := Int.emod_nonneg _ (ne_of_gt hM)
    have : (s.tile + dir * ((((dir * (i - s.tile) - 1) % d.MAX_TILES).toNat + 1 : Nat) : Int))
        % d.MAX_TILES = i := by
      push_cast
      rw [Int.toNat_of_nonneg hnn]
      have e1 : s.tile + dir * ((dir * (i - s.tile) - 1) % d.MAX_TILES + 1)
          = dir * ((dir * (i - s.tile) - 1) % d.MAX_TILES) + (s.tile + dir) := by ring
      rw [e1, Int.add_emod, Int.mul_emod, Int.emod_emod_of_dvd _ (dvd_refl _), ← Int.mul_emod,
        ← Int.add_emod]
      have e2 : dir * (dir * (i - s.tile) - 1) + (s.tile + dir) = (dir * dir) * (i - s.tile) + s.tile := by
        ring
      rw [e2, hdir, one_mul, sub_add_cancel]
      exact Int.emod_eq_of_lt hi0 hi1
    rw [this]; exact hi
  classical
  let k := Nat.find hex
  have hk : 1 ≤ k ∧ s.tiles ((s.tile + dir * k) % d.MAX_TILES) = true := Nat.find_spec hex
  have hmin : ∀ j : Nat, 1 ≤ j → j < k → s.tiles ((s.tile + dir * j) % d.MAX_TILES) = false := by
    intro j hj1 hj2
    have := Nat.find_min hex hj2
    simp only [not_and, Bool.not_eq_true] at this
    exact this hj1
  have hkM : (k : Int) ≤ d.MAX_TILES := by
    by_contra hgt
    push_neg at hgt
    -- the slot reached after `k - MAX_TILES` steps is the same slot
    have hj : (k - d.MAX_TILES.toNat : Nat) < k := by
      have : 0 < d.MAX_TILES.toNat := by omega
      omega
    have hj1 : 1 ≤ k - d.MAX_TILES.toNat := by omega
    have := hmin _ hj1 hj
    have hsame : (s.tile + dir * ((k - d.MAX_TILES.toNat : Nat) : Int)) % d.MAX_TILES
        = (s.tile + dir * k) % d.MAX_TILES := by
      have hc : ((k - d.MAX_TILES.toNat : Nat) : Int) = (k : Int) - d.MAX_TILES := by omega
      rw [hc]
      have : s.tile + dir * ((k : Int) - d.MAX_TILES) = s.tile + dir * k + d.MAX_TILES * (-dir) := by
        ring
      rw [this, Int.add_mul_emod_self_left]
    rw [hsame, hk.2] at this
    cases this
  refine ⟨k, hk.1, hkM, ?_, hk.2, hmin⟩
  exact cycleTile_steps d dir hM hw k s fuel hk.1 (by omega) h0 h1 hk.2 hmin

theorem emod_wrap_high (a m : Int) (h1 : m ≤ a) (h2 : a < 2 * m) : a % m = a - m := by
  have : a = (a - m) + m := by ring
  rw [this, Int.add_emod_self, ← this]
  exact Int.emod_eq_of_lt (by omega) (by omega)

theorem emod_wrap_low (a m : Int) (h1 : -m ≤ a) (h2 : a < 0) : a % m = a + m := by
  rw [← Int.add_emod_self]
  exact Int.emod_eq_of_lt (by omega) (by omega)

theorem cycleTile_wrap_forward (m : Int) (hM : 0 < m) (t : Int) (h0 : 0 ≤ t) (h1 : t < m) :
    (if t + 1 < 0 then m - 1 else if t + 1 ≥ m then 0 else t + 1) = (t + 1) % m := by
  rw [if_neg (by omega)]
  split
  · rw [emod_wrap_high _ _ (by omega) (by omega)]; omega
  · rw [Int.emod_eq_of_lt (by omega) (by omega)]

theorem cycleTile_wrap_backward (m : Int) (_hM : 0 < m) (t : Int) (h0 : 0 ≤ t) (h1 : t < m) :
    (if t + -1 < 0 then m - 1 else if t + -1 ≥ m then 0 else t + -1) = (t + -1) % m := by
  split
  · rw [emod_wrap_low _ _ (by omega) (by omega)]; omega
  · rw [if_neg (by omega), Int.emod_eq_of_lt (by omega) (by omega)]

/-- C4: when some slot of the tile table inside [0, MAX_TILES) is set and `tile`
is a valid index, `cycleTile(1)` returns within MAX_TILES iterations and leaves
`tile` at the first set slot met when stepping forward cyclically from the
current index (all slots passed on the way are unset; from the last set slot
this is the first set slot of the table), and `cycleTile(-1)` does the same
stepping backward (from the first set slot this is the last one); both results
index a set slot inside [0, MAX_TILES). -/
theorem cycleTile_cyclic (d : Defs) (s : Editor) (fuel : Nat)
    (hM : 0 < d.MAX_TILES) (h0 : 0 ≤ s.tile) (h1 : s.tile < d.MAX_TILES)
    (hset : ∃ i, 0 ≤ i ∧ i < d.MAX_TILES ∧ s.tiles i = true)
    (hfuel : d.MAX_TILES.toNat ≤ fuel) :
    (∃ k : Nat, 1 ≤ k ∧ (k : Int) ≤ d.MAX_TILES ∧
      cycleTile d 1 fuel s = some { s with tile := (s.tile + k) % d.MAX_TILES } ∧
      0 ≤ (s.tile + k) % d.MAX_TILES ∧ (s.tile + k) % d.MAX_TILES < d.MAX_TILES ∧
      s.tiles ((s.tile + k) % d.MAX_TILES) = true ∧
      (∀ j : Nat, 1 ≤ j → j < k → s.tiles ((s.tile + j) % d.MAX_TILES) = false) ∧
      ((∀ i, s.tile < i → i < d.MAX_TILES → s.tiles i = false) →
        ∀ i, 0 ≤ i → i < (s.tile + k) % d.MAX_TILES → s.tiles i = false)) ∧
    (∃ k : Nat, 1 ≤ k ∧ (k : Int) ≤ d.MAX_TILES ∧
      cycleTile d (-1) fuel s = some { s with tile := (s.tile - k) % d.MAX_TILES } ∧
      0 ≤ (s.tile - k) % d.MAX_TILES ∧ (s.tile - k) % d.MAX_TILES < d.MAX_TILES ∧
      s.tiles ((s.tile - k) % d.MAX_TILES) = true ∧
      (∀ j : Nat, 1 ≤ j → j < k → s.tiles ((s.tile - j) % d.MAX_TILES) = false) ∧
      ((∀ i, 0 ≤ i → i < s.tile → s.tiles i = false) →
        ∀ i, (s.tile - k) % d.MAX_TILES < i → i < d.MAX_TILES → s.tiles i = false)) := by
  constructor
  · obtain ⟨k, hk1, hkM, hrun, hk, hmin⟩ := cycleTile_find d 1 hM (by norm_num)
      (cycleTile_wrap_forward d.MAX_TILES hM) s fuel h0 h1 hset hfuel
    simp only [one_mul] at hrun hk hmin
    refine ⟨k, hk1, hkM, hrun, Int.emod_nonneg _ (ne_of_gt hM), Int.emod_lt_of_pos _ hM, hk,
      hmin, ?_⟩
    intro hlast i hi0 hi1
    by_cases hlt : s.tile + k < d.MAX_TILES
    · rw [Int.emod_eq_of_lt (by omega) hlt] at hk
      rw [hlast _ (by omega) hlt] at hk
      cases hk
    · rw [emod_wrap_high _ _ (by omega) (by omega)] at hi1
      have hj := hmin (i + d.MAX_TILES - s.tile).toNat (by omega) (by omega)
      rw [Int.toNat_of_nonneg (by omega)] at hj
      have e : s.tile + (i + d.MAX_TILES - s.tile) = i + d.MAX_TILES := by ring
      rw [e, Int.add_emod_self, Int.emod_eq_of_lt hi0 (by omega)] at hj
      exact hj
  · obtain ⟨k, hk1, hkM, hrun, hk, hmin⟩ := cycleTile_find d (-1) hM (by norm_num)
      (cycleTile_wrap_backward d.MAX_TILES hM) s fuel h0 h1 hset hfuel
    have e : ∀ j : Int, s.tile + -1 * j = s.tile - j := by intro j; ring
    simp only [e] at hrun hk hmin
    refine ⟨k, hk1, hkM, hrun, Int.emod_nonneg _ (ne_of_gt hM), Int.emod_lt_of_pos _ hM, hk,
      hmin, ?_⟩
    intro hfirst i hi0 hi1
    by_cases hge : 0 ≤ s.tile - k
    · rw [Int.emod_eq_of_lt hge (by omega)] at hk
      rw [hfirst _ hge (by omega)] at hk
      cases hk
    · rw [emod_wrap_low _ _ (by omega) (by omega)] at hi0
      have hj := hmin (s.tile + d.MAX_TILES - i).toNat (by omega) (by omega)
      rw [Int.toNat_of_nonneg (by omega)] at hj
      have e2 : s.tile - (s.tile + d.MAX_TILES - i) = i - d.MAX_TILES := by ring
      rw [e2, emod_wrap_low _ _ (by omega) (by omega)] at hj
      simpa using hj

theorem cycleTile_cyclic_witness :
    (0 : Int) < sampleDefs.MAX_TILES ∧ 0 ≤ sampleEditor.tile ∧
    sampleEditor.tile < sampleDefs.MAX_TILES ∧
    (∃ i, 0 ≤ i ∧ i < sampleDefs.MAX_TILES ∧ sampleEditor.tiles i = true) ∧
    sampleDefs.MAX_TILES.toNat ≤ 8 ∧
    (∃ k : Nat, 1 ≤ k ∧ (k : Int) ≤ sampleDefs.MAX_TILES ∧
      cycleTile sampleDefs 1 8 sampleEditor
        = some { sampleEditor with tile := (sampleEditor.tile + k) % sampleDefs.MAX_TILES }) :=
  ⟨by decide, by decide, by decide, ⟨1, by decide, by decide, rfl⟩, by decide,
    (cycleTile_cyclic sampleDefs sampleEditor 8 (by decide) (by decide) (by decide)
      ⟨1, by decide, by decide, rfl⟩ (by decide)).1.imp fun _ h => ⟨h.1, h.2.1, h.2.2.1⟩⟩

theorem saveEntitiesLoop_spec (callSave : CallSave) :
    ∀ (rest : List Addr) (fuel : Nat) (st : Option Addr) (s : Editor) (acc : List JSON),
      Chain s.mem st rest → rest.length ≤ fuel →
      ∃ s' recs, saveEntitiesLoop callSave fuel st s acc = some (s', acc ++ recs) ∧
        s' = { s with self := s'.self } ∧
        List.Forall₂ (IsRecordOf callSave s) rest recs := by
  intro rest
  induction rest with
  | nil =>
    intro fuel st s acc hch _
    have : st = none := hch
    subst this
    refine ⟨s, [], ?_, rfl, List.Forall₂.nil⟩
    cases fuel <;> simp [saveEntitiesLoop]
  | cons a r ih =>
    intro fuel st s acc hch hfuel
    obtain ⟨rfl, ent, hent, hchr⟩ := hch
    obtain ⟨f, rfl⟩ : ∃ f, fuel = f + 1 := ⟨fuel - 1, by simp at hfuel; omega⟩
    have hf : r.length ≤ f := by simp at hfuel; omega
    obtain ⟨s', recs, hrun, hframe, hrecs⟩ :=
      ih f ent.next { s with self := some a }
        (acc ++ [JSON.obj (match ent.save with
          | some g => callSave g ent (recordHead ent)
          | none => recordHead ent)]) hchr hf
    have hrecs' : List.Forall₂ (IsRecordOf callSave s) r recs := hrecs
    have hframe' : s' = { s with self := s'.self } := by rw [hframe]
    refine ⟨s', JSON.obj (match ent.save with
          | some g => callSave g ent (recordHead ent)
          | none => recordHead ent) :: recs, ?_, hframe', List.Forall₂.cons ?_ hrecs'⟩
    · simp only [saveEntitiesLoop, hent, Option.bind_eq_bind, Option.some_bind]
      have hobj : (match ent.save with
          | some g => callSave g ent
              (if ent.name.length > 0 then
                [] ++ [("type", JSON.str ent.typeName)] ++ [("x", JSON.num ent.x)]
                  ++ [("y", JSON.num ent.y)] ++ [("name", JSON.str ent.name)]
               else [] ++ [("type", JSON.str ent.typeName)] ++ [("x", JSON.num ent.x)]
                  ++ [("y", JSON.num ent.y)])
          | none =>
              (if ent.name.length > 0 then
                [] ++ [("type", JSON.str ent.typeName)] ++ [("x", JSON.num ent.x)]
                  ++ [("y", JSON.num ent.y)] ++ [("name", JSON.str ent.name)]
               else [] ++ [("type", JSON.str ent.typeName)] ++ [("x", JSON.num ent.x)]
                  ++ [("y", JSON.num ent.y)]))
          = (match ent.save with
            | some g => callSave g ent (recordHead ent)
            | none => recordHead ent) := by
        have : (if ent.name.length > 0 then
                [] ++ [("type", JSON.str ent.typeName)] ++ [("x", JSON.num ent.x)]
                  ++ [("y", JSON.num ent.y)] ++ [("name", JSON.str ent.name)]
               else [] ++ [("type", JSON.str ent.typeName)] ++ [("x", JSON.num ent.x)]
                  ++ [("y", JSON.num ent.y)]) = recordHead ent := by
          simp only [recordHead]
          split <;> rfl
        rw [this]
      rw [hobj, hrun, List.append_assoc]
      rfl
    · refine ⟨ent, _, hent, rfl, ?_, ?_⟩
      · intro h; simp [h]
      · intro g h; simp [h]

/-- C8: on a well-formed entity store holding the entities `l`, `saveEntities`
returns and adds to `root` a field `"entities"` whose array has one record per
entity of `l`, in store order (so none for the sentinel head, which is not in
`l`); each record is an object that starts with `type`, `x`, `y` and, exactly
when the name is not empty, `name`, followed by whatever the entity's save
callback appends; the editor state is unchanged apart from the global `self`. -/
theorem saveEntities_records (callSave : CallSave) (s : Editor) (l : List Addr) (fuel : Nat)
    (root : List (String × JSON)) (hs : Store s l) (hfuel : l.length ≤ fuel) :
    ∃ s' recs, saveEntities callSave fuel s root
        = some (s', root ++ [("entities", JSON.arr recs)]) ∧
      s' = { s with self := s'.self } ∧
      0 ∉ l ∧ recs.length = l.length ∧
      List.Forall₂ (IsRecordOf callSave s) l recs ∧
      ((∀ f e o, ∃ extra, callSave f e o = o ++ extra) →
        List.Forall₂ (fun a r => ∃ ent extra, s.mem a = some ent ∧
          r = JSON.obj (recordHead ent ++ extra) ∧ (ent.save = none → extra = [])) l recs) := by
  obtain ⟨hd, hhd, hch⟩ := hs.chain
  obtain ⟨s', recs, hrun, hframe, hrecs⟩ :=
    saveEntitiesLoop_spec callSave l fuel hd.next s [] hch hfuel
  refine ⟨s', recs, ?_, hframe, hs.nohead, hrecs.length_eq.symm, hrecs, ?_⟩
  · simp [saveEntities, hhd, hrun]
  · intro happ
    refine hrecs.imp ?_
    rintro a r ⟨ent, fields, hent, hr, hnone, hsome⟩
    cases hsave : ent.save with
    | none => exact ⟨ent, [], hent, by rw [hr, hnone hsave]; simp, fun _ => rfl⟩
    | some f =>
      obtain ⟨extra, hextra⟩ := happ f ent (recordHead ent)
      exact ⟨ent, extra, hent, by rw [hr, hsome f hsave, hextra], fun h => by simp [hsave] at h⟩

theorem saveEntities_records_witness :
    Store sampleEditor [1, 2, 3] ∧ [1, 2, 3].length ≤ 3 ∧
    ∃ s' recs, saveEntities (fun _ _ o => o) 3 sampleEditor []
        = some (s', [] ++ [("entities", JSON.arr recs)]) ∧ recs.length = 3 :=
  ⟨sampleEditor_store, by decide,
    (saveEntities_records (fun _ _ o => o) sampleEditor [1, 2, 3] 3 [] sampleEditor_store
      (by decide)).imp fun _ h => h.imp fun _ h => ⟨h.1, h.2.2.2.1⟩⟩

/-! ## The blocks before the camera block leave its inputs alone -/

theorem setMap_panInputs (d : Defs) (x y v : Int) (s s' : Editor)
    (h : setMap d x y v s = some s') : panInputs s' = panInputs s := by
  unfold setMap at h
  split at h
  · cases h; rfl
  · cases h

theorem deleteEntityLoop_panInputs (collision : Collision) :
    ∀ (fuel : Nat) (prev : Addr) (st : Option Addr) (s s' : Editor),
      deleteEntityLoop collision fuel prev st s = some s' → panInputs s' = panInputs s := by
  intro fuel
  induction fuel with
  | zero =>
    intro prev st s s' h
    cases st with
    | none => simp only [deleteEntityLoop] at h; cases h; rfl
    | some e => simp [deleteEntityLoop] at h
  | succ f ih =>
    intro prev st s s' h
    cases st with
    | none => simp only [deleteEntityLoop] at h; cases h; rfl
    | some e =>
      simp only [deleteEntityLoop, Option.bind_eq_bind, Option.bind_eq_some] at h
      obtain ⟨ent, _, h⟩ := h
      split at h
      · simp only [Option.bind_eq_some] at h
        obtain ⟨p, _, ent2, _, ent3, _, p2, _, h⟩ := h
        rw [ih _ _ _ _ h]
        simp only [panInputs, Editor.emit, Editor.store]
        split_ifs <;> rfl
      · exact ih _ _ _ _ h

theorem deleteEntity_panInputs (collision : Collision) (fuel : Nat) (s s' : Editor)
    (h : deleteEntity collision fuel s = some s') : panInputs s' = panInputs s := by
  simp only [deleteEntity, Option.bind_eq_bind, Option.bind_eq_some] at h
  obtain ⟨hd, _, h⟩ := h
  exact deleteEntityLoop_panInputs collision _ _ _ _ _ h

theorem toggleSelectLoop_panInputs (collision : Collision) :
    ∀ (fuel : Nat) (st : Option Addr) (s s' : Editor),
      toggleSelectLoop collision fuel st s = some s' → panInputs s' = panInputs s := by
  intro fuel
  induction fuel with
  | zero =>
    intro st s s' h
    cases st with
    | none => simp only [toggleSelectLoop] at h; cases h; rfl
    | some e => simp [toggleSelectLoop] at h
  | succ f ih =>
    intro st s s' h
    cases st with
    | none => simp only [toggleSelectLoop] at h; cases h; rfl
    | some e =>
      simp only [toggleSelectLoop, Option.bind_eq_bind, Option.bind_eq_some] at h
      obtain ⟨ent, _, h⟩ := h
      split at h
      · cases h; rfl
      · exact ih _ _ _ h

theorem toggleSelectEntity_panInputs (collision : Collision) (fuel : Nat) (s s' : Editor)
    (h : toggleSelectEntity collision fuel s = some s') : panInputs s' = panInputs s := by
  unfold toggleSelectEntity at h
  split at h
  · simp only [Option.bind_eq_bind, Option.bind_eq_some] at h
    obtain ⟨hd, _, h⟩ := h
    exact toggleSelectLoop_panInputs collision _ _ _ _ h
  · simp only [Option.bind_eq_bind, Option.bind_eq_some] at h
    obtain ⟨e1, _, e2, _, e3, _, e4, _, e5, _, s5, h5, h⟩ := h
    simp only [Option.some.injEq] at h
    subst h
    split at h5
    · split at h5
      · simp only [Option.some.injEq] at h5
        subst h5; rfl
      · simp at h5
    · simp only [Option.some.injEq] at h5
      subst h5; rfl

theorem flipLoop_panInputs (collision : Collision) :
    ∀ (fuel : Nat) (st : Option Addr) (s s' : Editor),
      flipLoop collision fuel st s = some s' → panInputs s' = panInputs s := by
  intro fuel
  induction fuel with
  | zero =>
    intro st s s' h
    cases st with
    | none => simp only [flipLoop] at h; cases h; rfl
    | some e => simp [flipLoop] at h
  | succ f ih =>
    intro st s s' h
    cases st with
    | none => simp only [flipLoop] at h; cases h; rfl
    | some e =>
      simp only [flipLoop, Option.bind_eq_bind, Option.bind_eq_some] at h
      obtain ⟨ent, _, h⟩ := h
      split at h
      · cases h; rfl
      · exact ih _ _ _ h

theorem flipSelectedEntity_panInputs (collision : Collision) (fuel : Nat) (s s' : Editor)
    (h : flipSelectedEntity collision fuel s = some s') : panInputs s' = panInputs s := by
  unfold flipSelectedEntity at h
  split at h
  · simp only [Option.bind_eq_bind, Option.bind_eq_some] at h
    obtain ⟨ent, _, h⟩ := h
    cases h; rfl
  · simp only [Option.bind_eq_bind, Option.bind_eq_some] at h
    obtain ⟨hd, _, h⟩ := h
    exact flipLoop_panInputs collision _ _ _ _ h

theorem createEntity_panInputs (init : String → Entity) (s s' : Editor)
    (h : createEntity init s = some s') : panInputs s' = panInputs s := by
  simp only [createEntity, spawnEditorEntity, Option.bind_eq_bind, Option.bind_eq_some] at h
  obtain ⟨a, ⟨t, _, h1⟩, ent, _, h⟩ := h
  simp only [Option.some.injEq] at h1 h
  subst h1
  subst h
  rfl

theorem cycleTile_panInputs (d : Defs) (dir : Int) :
    ∀ (fuel : Nat) (s s' : Editor), cycleTile d dir fuel s = some s' →
      panInputs s' = panInputs s := by
  intro fuel
  induction fuel with
  | zero => intro s s' h; simp [cycleTile] at h
  | succ f ih =>
    intro s s' h
    simp only [cycleTile] at h
    split_ifs at h
    all_goals first
      | exact (ih _ _ h).trans rfl
      | (simp only [Option.some.injEq] at h; subst h; rfl)

theorem cycleEnt_panInputs (dir : Int) (s s' : Editor) (h : cycleEnt dir s = some s') :
    panInputs s' = panInputs s := by
  simp only [cycleEnt] at h
  split_ifs at h
  all_goals
    simp only [Option.map_eq_some'] at h
    obtain ⟨e, _, h⟩ := h
    subst h; rfl

theorem saveEntitiesLoop_panInputs (callSave : CallSave) :
    ∀ (fuel : Nat) (st : Option Addr) (s : Editor) (acc : List JSON) (r : Editor × List JSON),
      saveEntitiesLoop callSave fuel st s acc = some r → panInputs r.1 = panInputs s := by
  intro fuel
  induction fuel with
  | zero =>
    intro st s acc r h
    cases st with
    | none => simp only [saveEntitiesLoop] at h; cases h; rfl
    | some e => simp [saveEntitiesLoop] at h
  | succ f ih =>
    intro st s acc r h
    cases st with
    | none => simp only [saveEntitiesLoop] at h; cases h; rfl
    | some e =>
      simp only [saveEntitiesLoop, Option.bind_eq_bind, Option.bind_eq_some] at h
      obtain ⟨ent, _, h⟩ := h
      exact (ih _ _ _ _ h).trans rfl

theorem saveStage_panInputs (d : Defs) (callSave : CallSave) (fuel : Nat) (s s' : Editor)
    (h : saveStage d callSave fuel s = some s') : panInputs s' = panInputs s := by
  simp only [saveStage, saveEntities, Option.bind_eq_bind, Option.bind_eq_some] at h
  obtain ⟨a, ⟨hd, _, r, hloop, h1⟩, h⟩ := h
  simp only [Option.some.injEq] at h1 h
  subst h1
  subst h
  exact saveEntitiesLoop_panInputs callSave _ _ _ _ _ hloop

theorem logicLeft_panInputs (d : Defs) (ext : Extern) (fuel : Nat) (s s' : Editor)
    (h : logicLeft d ext fuel s = some s') : panInputs s' = panInputs s := by
  unfold logicLeft at h
  by_cases hl : s.mouse.left = true
  · rw [if_pos hl] at h
    cases hm : s.mode <;> rw [hm] at h <;> simp only at h
    · exact setMap_panInputs d _ _ _ _ _ h
    · exact (createEntity_panInputs _ _ _ h).trans rfl
    · exact (toggleSelectEntity_panInputs _ _ _ _ h).trans rfl
  · rw [if_neg hl] at h
    simp only [Option.some.injEq] at h; subst h; rfl

theorem logicRight_panInputs (d : Defs) (ext : Extern) (fuel : Nat) (s s' : Editor)
    (h : logicRight d ext fuel s = some s') : panInputs s' = panInputs s := by
  unfold logicRight at h
  by_cases hl : s.mouse.right = true
  · rw [if_pos hl] at h
    cases hm : s.mode <;> rw [hm] at h <;> simp only at h
    · exact setMap_panInputs d _ _ _ _ _ h
    · exact deleteEntity_panInputs _ _ _ _ h
    · exact (flipSelectedEntity_panInputs _ _ _ _ h).trans rfl
  · rw [if_neg hl] at h
    simp only [Option.some.injEq] at h; subst h; rfl

theorem logicCycle_panInputs (d : Defs) (fuel : Nat) (s s' : Editor)
    (h : logicCycle d fuel s = some s') : panInputs s' = panInputs s := by
  unfold logicCycle at h
  obtain ⟨s1, h1, h2⟩ := Option.bind_eq_some.1 h
  have e1 : panInputs s1 = panInputs s := by
    by_cases hb : s.mouse.x1 = true
    · rw [if_pos hb] at h1
      cases hm : s.mode <;> simp only [hm] at h1
      · exact (cycleTile_panInputs d 1 _ _ _ h1).trans rfl
      · exact (cycleEnt_panInputs 1 _ _ h1).trans rfl
      · simp only [Option.some.injEq] at h1; subst h1; rfl
    · rw [if_neg hb] at h1
      simp only [Option.some.injEq] at h1; subst h1; rfl
  rw [← e1]
  by_cases hb : s1.mouse.x2 = true
  · rw [if_pos hb] at h2
    cases hm : s1.mode <;> simp only [hm] at h2
    · exact (cycleTile_panInputs d (-1) _ _ _ h2).trans rfl
    · exact (cycleEnt_panInputs (-1) _ _ h2).trans rfl
    · simp only [Option.some.injEq] at h2; subst h2; rfl
  · rw [if_neg hb] at h2
    simp only [Option.some.injEq] at h2; subst h2; rfl

theorem logicKeys_panInputs (d : Defs) (ext : Extern) (fuel : Nat) (s s' : Editor)
    (h : logicKeys d ext fuel s = some s') : panInputs s' = panInputs s := by
  unfold logicKeys at h
  obtain ⟨s1, h1, h2⟩ := Option.bind_eq_some.1 h
  have e1 : panInputs s1 = panInputs s := by
    by_cases hb : s.keyboard.space = true
    · rw [if_pos hb] at h1
      exact (saveStage_panInputs d _ _ _ _ h1).trans rfl
    · rw [if_neg hb] at h1
      simp only [Option.some.injEq] at h1; subst h1; rfl
  simp only [Option.some.injEq] at h2
  subst h2
  rw [← e1]
  cases h1 : s1.keyboard.k1 <;> cases h2 : s1.keyboard.k2 <;> cases h3 : s1.keyboard.k3 <;>
    simp [panInputs, h1, h2, h3]

theorem logic_eq_camera (d : Defs) (ext : Extern) (fuel : Nat) (s s' : Editor)
    (h : logic d ext fuel s = some s') :
    ∃ s1, panInputs s1 = panInputs s ∧ s' = logicCamera d s1 := by
  unfold logic at h
  obtain ⟨s1, h1, h⟩ := Option.bind_eq_some.1 h
  obtain ⟨s2, h2, h⟩ := Option.bind_eq_some.1 h
  obtain ⟨s3, h3, h⟩ := Option.bind_eq_some.1 h
  obtain ⟨s4, h4, h5⟩ := Option.bind_eq_some.1 h
  simp only [Option.some.injEq] at h5
  refine ⟨s4, ?_, h5.symm⟩
  rw [logicKeys_panInputs d ext fuel _ _ h4, logicCycle_panInputs d fuel _ _ h3,
    logicRight_panInputs d ext fuel _ _ h2, logicLeft_panInputs d ext fuel _ _ h1]

theorem logicCamera_fired (d : Defs) (s : Editor) (hfire : s.cameraTimer - 1 ≤ 0) :
    (logicCamera d s).cameraX =
      min (max ((if s.keyboard.left then s.cameraX - d.TILE_SIZE else s.cameraX)
          + (if s.keyboard.right then d.TILE_SIZE else 0)) 0)
        (d.MAP_WIDTH * d.TILE_SIZE - d.SCREEN_WIDTH + (d.TILE_SIZE - 64)) ∧
    (logicCamera d s).cameraY =
      min (max ((if s.keyboard.up then s.cameraY - d.TILE_SIZE else s.cameraY)
          + (if s.keyboard.down then d.TILE_SIZE else 0)) 0)
        (d.MAP_HEIGHT * d.TILE_SIZE - d.SCREEN_HEIGHT) := by
  simp only [logicCamera, hfire, if_true]
  cases s.keyboard.up <;> cases s.keyboard.down <;> cases s.keyboard.left <;>
    cases s.keyboard.right <;>
    simp only [if_true, if_false, Bool.false_eq_true, add_zero, and_self]

theorem logicCamera_x_bound (d : Defs) (s : Editor) (hfire : s.cameraTimer - 1 ≤ 0) :
    (logicCamera d s).cameraX + d.SCREEN_WIDTH
      ≤ d.MAP_WIDTH * d.TILE_SIZE + (d.TILE_SIZE - 64) := by
  rw [(logicCamera_fired d s hfire).1]
  have := min_le_right (max ((if s.keyboard.left then s.cameraX - d.TILE_SIZE else s.cameraX)
      + (if s.keyboard.right then d.TILE_SIZE else 0)) 0)
    (d.MAP_WIDTH * d.TILE_SIZE - d.SCREEN_WIDTH + (d.TILE_SIZE - 64))
  omega

/-- C5 as amended: provided the constants satisfy 0 < TILE_SIZE <= 64 and the
map is at least as large as the screen (both clamp bounds are non-negative),
after every logic step in which the pan timer fires, whatever the camera
position and the arrow keys were, 0 <= camera.x, 0 <= camera.y,
camera.y + SCREEN_HEIGHT <= MAP_HEIGHT * TILE_SIZE and
camera.x + SCREEN_WIDTH <= MAP_WIDTH * TILE_SIZE.  With the down arrow held, a
camera at the maximum in-bounds offset MAP_HEIGHT * TILE_SIZE - SCREEN_HEIGHT
stays there.  With the right arrow held, a camera at the clamp bound
MAP_WIDTH * TILE_SIZE - SCREEN_WIDTH + (TILE_SIZE - 64) stays there, and a camera
at the maximum in-bounds offset MAP_WIDTH * TILE_SIZE - SCREEN_WIDTH ends at that
clamp bound, 64 - TILE_SIZE to the left of where it was.  The camera block
itself is a total function with the same bounds. -/
theorem logic_camera_clamped (d : Defs) (hts0 : 0 < d.TILE_SIZE) (hts : d.TILE_SIZE ≤ 64)
    (hw : 0 ≤ d.MAP_WIDTH * d.TILE_SIZE - d.SCREEN_WIDTH + (d.TILE_SIZE - 64))
    (hh : 0 ≤ d.MAP_HEIGHT * d.TILE_SIZE - d.SCREEN_HEIGHT) :
    (∀ s : Editor, s.cameraTimer - 1 ≤ 0 →
      0 ≤ (logicCamera d s).cameraX ∧ 0 ≤ (logicCamera d s).cameraY ∧
      (logicCamera d s).cameraY + d.SCREEN_HEIGHT ≤ d.MAP_HEIGHT * d.TILE_SIZE ∧
      (logicCamera d s).cameraX + d.SCREEN_WIDTH ≤ d.MAP_WIDTH * d.TILE_SIZE) ∧
    (∀ (ext : Extern) (fuel : Nat) (s s' : Editor),
      logic d ext fuel s = some s' → s.cameraTimer - 1 ≤ 0 →
      0 ≤ s'.cameraX ∧ 0 ≤ s'.cameraY ∧
      s'.cameraY + d.SCREEN_HEIGHT ≤ d.MAP_HEIGHT * d.TILE_SIZE ∧
      s'.cameraX + d.SCREEN_WIDTH ≤ d.MAP_WIDTH * d.TILE_SIZE ∧
      (s.keyboard.right = true →
        s.cameraX = d.MAP_WIDTH * d.TILE_SIZE - d.SCREEN_WIDTH + (d.TILE_SIZE - 64) →
        s'.cameraX = s.cameraX) ∧
      (s.keyboard.down = true →
        s.cameraY = d.MAP_HEIGHT * d.TILE_SIZE - d.SCREEN_HEIGHT →
        s'.cameraY = s.cameraY) ∧
      (s.keyboard.right = true →
        s.cameraX = d.MAP_WIDTH * d.TILE_SIZE - d.SCREEN_WIDTH →
        s'.cameraX = s.cameraX + (d.TILE_SIZE - 64))) := by
  have bounds : ∀ s : Editor, s.cameraTimer - 1 ≤ 0 →
      0 ≤ (logicCamera d s).cameraX ∧ 0 ≤ (logicCamera d s).cameraY ∧
      (logicCamera d s).cameraY + d.SCREEN_HEIGHT ≤ d.MAP_HEIGHT * d.TILE_SIZE ∧
      (logicCamera d s).cameraX + d.SCREEN_WIDTH ≤ d.MAP_WIDTH * d.TILE_SIZE := by
    intro s hfire
    obtain ⟨hx, hy⟩ := logicCamera_fired d s hfire
    rw [hx, hy]
    refine ⟨le_min (le_max_right _ _) hw, le_min (le_max_right _ _) hh, ?_, ?_⟩
    · have := min_le_right (max ((if s.keyboard.up then s.cameraY - d.TILE_SIZE else s.cameraY)
          + (if s.keyboard.down then d.TILE_SIZE else 0)) 0)
        (d.MAP_HEIGHT * d.TILE_SIZE - d.SCREEN_HEIGHT)
      omega
    · have := min_le_right (max ((if s.keyboard.left then s.cameraX - d.TILE_SIZE else s.cameraX)
          + (if s.keyboard.right then d.TILE_SIZE else 0)) 0)
        (d.MAP_WIDTH * d.TILE_SIZE - d.SCREEN_WIDTH + (d.TILE_SIZE - 64))
      omega
  refine ⟨bounds, ?_⟩
  intro ext fuel s s' hrun hfire
  obtain ⟨s1, hin, rfl⟩ := logic_eq_camera d ext fuel s s' hrun
  simp only [panInputs, Prod.mk.injEq] at hin
  obtain ⟨hcx, hcy, hct, hup, hdown, hleft, hright⟩ := hin
  have hfire1 : s1.cameraTimer - 1 ≤ 0 := by rw [hct]; exact hfire
  obtain ⟨b1, b2, b3, b4⟩ := bounds s1 hfire1
  refine ⟨b1, b2, b3, b4, ?_, ?_, ?_⟩
  · intro hr hmax
    rw [(logicCamera_fired d s1 hfire1).1, hright, hr, hcx, hleft]
    simp only [if_true]
    cases s.keyboard.left
    · simp only [Bool.false_eq_true, if_false]
      rw [max_eq_left (by omega), min_eq_right (by omega)]
      exact hmax.symm
    · simp only [if_true, sub_add_cancel]
      rw [max_eq_left (by omega), min_eq_right (by omega)]
      exact hmax.symm
  · intro hd hmax
    rw [(logicCamera_fired d s1 hfire1).2, hdown, hd, hcy, hup]
    simp only [if_true]
    cases s.keyboard.up
    · simp only [Bool.false_eq_true, if_false]
      rw [max_eq_left (by omega), min_eq_right (by omega)]
      exact hmax.symm
    · simp only [if_true, sub_add_cancel]
      rw [max_eq_left (by omega), min_eq_right (by omega)]
      exact hmax.symm
  · intro hr hmax
    rw [(logicCamera_fired d s1 hfire1).1, hright, hr, hcx, hleft]
    simp only [if_true]
    cases s.keyboard.left
    · simp only [Bool.false_eq_true, if_false]
      rw [max_eq_left (by omega), min_eq_right (by omega)]
      omega
    · simp only [if_true, sub_add_cancel]
      rw [max_eq_left (by omega), min_eq_right (by omega)]
      omega

theorem logic_camera_clamped_witness :
    (0 : Int) < sampleDefs.TILE_SIZE ∧ sampleDefs.TILE_SIZE ≤ 64 ∧
    0 ≤ sampleDefs.MAP_WIDTH * sampleDefs.TILE_SIZE - sampleDefs.SCREEN_WIDTH
      + (sampleDefs.TILE_SIZE - 64) ∧
    0 ≤ sampleDefs.MAP_HEIGHT * sampleDefs.TILE_SIZE - sampleDefs.SCREEN_HEIGHT ∧
    logic sampleDefs sampleExtern 3 panEditor = some (logicCamera sampleDefs panEditor) ∧
    panEditor.cameraTimer - 1 ≤ 0 ∧
    (logicCamera sampleDefs panEditor).cameraX = 624 ∧
    (logicCamera sampleDefs panEditor).cameraY = 240 ∧
    logic sampleDefs sampleExtern 3 edgeEditor = some (logicCamera sampleDefs edgeEditor) ∧
    edgeEditor.cameraX = sampleDefs.MAP_WIDTH * sampleDefs.TILE_SIZE - sampleDefs.SCREEN_WIDTH ∧
    (logicCamera sampleDefs edgeEditor).cameraX = 640 + (48 - 64) := by
  have h := (logic_camera_clamped sampleDefs (by decide) (by decide) (by decide) (by decide)).2
    sampleExtern 3 panEditor (logicCamera sampleDefs panEditor) rfl (by decide)
  have h2 := (logic_camera_clamped sampleDefs (by decide) (by decide) (by decide) (by decide)).2
    sampleExtern 3 edgeEditor (logicCamera sampleDefs edgeEditor) rfl (by decide)
  exact ⟨by decide, by decide, by decide, by decide, rfl, by decide,
    h.2.2.2.2.1 rfl rfl, h.2.2.2.2.2.1 rfl rfl, rfl, by decide, h2.2.2.2.2.2.2 rfl rfl⟩

/-- C5, counterexample: with the constants of `sampleDefs` the camera offset 640
is the maximum in-bounds offset (640 + SCREEN_WIDTH = MAP_WIDTH * TILE_SIZE, and
641 is out of bounds); a logic step in which the pan timer fires with the right
arrow held takes the camera from 640 to 624, the clamp bound
MAP_WIDTH * TILE_SIZE - SCREEN_WIDTH + (TILE_SIZE - 64): it does not stay at the
maximum in-bounds offset. -/
theorem logic_pans_back_from_right_edge :
    edgeEditor.cameraX = 640 ∧
    edgeEditor.cameraX + sampleDefs.SCREEN_WIDTH = sampleDefs.MAP_WIDTH * sampleDefs.TILE_SIZE ∧
    ¬ (edgeEditor.cameraX + 1 + sampleDefs.SCREEN_WIDTH
      ≤ sampleDefs.MAP_WIDTH * sampleDefs.TILE_SIZE) ∧
    edgeEditor.keyboard.right = true ∧ edgeEditor.keyboard.left = false ∧
    edgeEditor.cameraTimer - 1 ≤ 0 ∧
    (logic sampleDefs sampleExtern 3 edgeEditor).map (fun s => (s.cameraX, s.cameraY))
      = some (624, 240) ∧
    (logic sampleDefs sampleExtern 3 edgeEditor).map (fun s => decide (s.cameraX = 640))
      = some false :=
  ⟨rfl, by decide, by decide, rfl, rfl, by decide, rfl, rfl⟩

/-! ## The logic step in TILE mode -/

theorem Store.of_eq {s s' : Editor} {l : List Addr} (hs : Store s l) (hm : s'.mem = s.mem)
    (ht : s'.entityTail = s.entityTail) : Store s' l :=
  ⟨hm ▸ hs.chain, hs.nodup, hs.nohead, ht.trans hs.tail⟩

theorem digitVal_digitChar (n : Nat) (h : n < 10) : digitVal (digitChar n) = n := by
  interval_cases n <;> rfl

theorem digitChar_ne_space (n : Nat) (h : n < 10) : digitChar n ≠ ' ' := by
  interval_cases n <;> decide

theorem digitChar_ne_minus (n : Nat) (h : n < 10) : digitChar n ≠ '-' := by
  interval_cases n <;> decide

theorem decDigitsAux_spec :
    ∀ (fuel n : Nat) (acc : List Char), n < fuel →
      ∃ ds : List Char, decDigitsAux fuel n acc = ds.reverse ++ acc ∧
        ds.foldr (fun c a => 10 * a + digitVal c) 0 = n ∧ ds ≠ [] ∧
        ∀ c ∈ ds, c ≠ ' ' ∧ c ≠ '-' := by
  intro fuel
  induction fuel with
  | zero => intro n acc h; omega
  | succ f ih =>
    intro n acc h
    by_cases hn : n < 10
    · refine ⟨[digitChar n], ?_, ?_, by simp, ?_⟩
      · simp [decDigitsAux, hn]
      · simp [digitVal_digitChar n hn]
      · intro c hc
        simp only [List.mem_singleton] at hc
        subst hc
        exact ⟨digitChar_ne_space n hn, digitChar_ne_minus n hn⟩
    · obtain ⟨ds, h1, h2, _, h4⟩ := ih (n / 10) (digitChar (n % 10) :: acc) (by omega)
      have hm : n % 10 < 10 := Nat.mod_lt _ (by norm_num)
      refine ⟨digitChar (n % 10) :: ds, ?_, ?_, by simp, ?_⟩
      · simp [decDigitsAux, hn, h1]
      · simp only [List.foldr_cons, h2, digitVal_digitChar _ hm]
        omega
      · intro c hc
        rcases List.mem_cons.mp hc with rfl | hc
        · exact ⟨digitChar_ne_space _ hm, digitChar_ne_minus _ hm⟩
        · exact h4 c hc

theorem decDigits_spec (n : Nat) :
    parseNat (decDigits n) = n ∧ decDigits n ≠ [] ∧ ∀ c ∈ decDigits n, c ≠ ' ' ∧ c ≠ '-' := by
  obtain ⟨ds, h1, h2, h3, h4⟩ := decDigitsAux_spec (n + 1) n [] (Nat.lt_succ_self n)
  have h : decDigits n = ds.reverse := by simp [decDigits, h1]
  refine ⟨?_, ?_, ?_⟩
  · rw [h, parseNat, List.foldl_reverse]; exact h2
  · rw [h]; simpa using h3
  · intro c hc
    rw [h] at hc
    exact h4 c (List.mem_reverse.mp hc)

theorem parseInt_formatInt (v : Int) : parseInt (formatInt v) = v := by
  obtain ⟨h1, h2, h3⟩ := decDigits_spec v.natAbs
  unfold formatInt
  split
  · simp only [parseInt, h1]
    omega
  · cases hd : decDigits v.natAbs with
    | nil => exact absurd hd h2
    | cons c cs =>
      have hc : c ≠ '-' := (h3 c (by rw [hd]; exact List.mem_cons_self _ _)).2
      have : parseInt (c :: cs) = (parseNat (c :: cs) : Int) := by
        unfold parseInt
        split
        · rename_i heq
          simp only [List.cons.injEq] at heq
          exact absurd heq.1.symm (Ne.symm hc)
        · rfl
      rw [this, ← hd, h1]
      omega

theorem formatInt_token (v : Int) : formatInt v ≠ [] ∧ ∀ c ∈ formatInt v, c ≠ ' ' := by
  obtain ⟨_, h2, h3⟩ := decDigits_spec v.natAbs
  unfold formatInt
  split
  · refine ⟨by simp, ?_⟩
    intro c hc
    rcases List.mem_cons.mp hc with rfl | hc
    · decide
    · exact (h3 c hc).1
  · exact ⟨h2, fun c hc => (h3 c hc).1⟩

theorem splitSpacesAux_token (t : List Char) :
    ∀ (cur rest : List Char), (∀ c ∈ t, c ≠ ' ') → cur ++ t ≠ [] →
      splitSpacesAux cur (t ++ ' ' :: rest) = (cur ++ t) :: splitSpacesAux [] rest := by
  induction t with
  | nil =>
    intro cur rest _ hne
    have : cur ≠ [] := by simpa using hne
    simp [splitSpacesAux, this]
  | cons c t ih =>
    intro cur rest hns hne
    have hc : c ≠ ' ' := hns c (List.mem_cons_self _ _)
    have := ih (cur ++ [c]) rest (fun x hx => hns x (List.mem_cons_of_mem _ hx)) (by simp)
    have e : (c :: t) ++ ' ' :: rest = c :: (t ++ ' ' :: rest) := rfl
    rw [e, splitSpacesAux, if_neg hc, this]
    simp

theorem splitSpaces_tokens (ts : List (List Char))
    (h : ∀ t ∈ ts, t ≠ [] ∧ ∀ c ∈ t, c ≠ ' ') :
    splitSpaces (ts.flatMap fun t => t ++ [' ']) = ts := by
  unfold splitSpaces
  induction ts with
  | nil => simp [splitSpacesAux]
  | cons t ts ih =>
    obtain ⟨h1, h2⟩ := h t (List.mem_cons_self _ _)
    have := splitSpacesAux_token t [] (ts.flatMap fun t => t ++ [' ']) h2 (by simpa using h1)
    simp only [List.flatMap_cons, List.append_assoc, List.singleton_append]
    rw [this, ih (fun u hu => h u (List.mem_cons_of_mem _ hu))]
    simp

theorem foldl_append_flatMap {α β : Type} (g : α → List β) (l : List α) (init : List β) :
    l.foldl (fun buf x => buf ++ g x) init = init ++ l.flatMap g := by
  induction l generalizing init with
  | nil => simp
  | cons a l ih => simp [ih]

theorem flatMap_range_grid {β : Type} (w : Nat) (f : Nat → Nat → β) :
    ∀ h : Nat, (List.range h).flatMap (fun y => (List.range w).map fun x => f x y)
      = (List.range (h * w)).map fun k => f (k % w) (k / w) := by
  intro h
  induction h with
  | zero => simp
  | succ n ih =>
    rw [List.range_succ, List.flatMap_append, ih, Nat.succ_mul, List.range_add, List.map_append]
    congr 1
    simp only [List.flatMap_cons, List.flatMap_nil, List.append_nil, List.map_map]
    apply List.map_congr_left
    intro x hx
    have hxw : x < w := List.mem_range.mp hx
    have hw : 0 < w := by omega
    simp only [Function.comp]
    rw [Nat.mul_comm n w, Nat.mul_add_mod, Nat.mod_eq_of_lt hxw, Nat.mul_add_div hw,
      Nat.div_eq_of_lt hxw, Nat.add_zero]

theorem saveMapText_eq (d : Defs) (map : Int → Int → Int) :
    saveMapText d map =
      ((List.range (d.MAP_HEIGHT.toNat * d.MAP_WIDTH.toNat)).map fun k =>
        formatInt (map ((k % d.MAP_WIDTH.toNat : Nat) : Int) ((k / d.MAP_WIDTH.toNat : Nat) : Int))).flatMap
        fun t => t ++ [' '] := by
  unfold saveMapText
  rw [← flatMap_range_grid d.MAP_WIDTH.toNat (fun x y => formatInt (map (x : Int) (y : Int)))]
  simp only [foldl_append_flatMap, List.nil_append, List.flatMap_assoc, List.flatMap_map]

/-- C7: the string `saveMap` stores under `"map"` is the concatenation of
MAP_WIDTH * MAP_HEIGHT tokens, each followed by one space, the token at
position y * MAP_WIDTH + x being the decimal text of `stage.map[x][y]` (no
token is empty or contains a space, and reading a token as a decimal integer
gives back the value); so splitting the string on spaces and reading the
tokens in order gives back the tile grid. -/
theorem saveMap_text_roundtrip (d : Defs) (s : Editor) (root : List (String × JSON)) :
    saveMap d s root = root ++ [("map", JSON.str (String.mk (saveMapText d s.map)))] ∧
    saveMapText d s.map =
      (List.range (d.MAP_HEIGHT.toNat * d.MAP_WIDTH.toNat)).flatMap (fun k =>
        formatInt (s.map ((k % d.MAP_WIDTH.toNat : Nat) : Int) ((k / d.MAP_WIDTH.toNat : Nat) : Int))
          ++ [' ']) ∧
    (∀ v : Int, formatInt v ≠ [] ∧ (∀ c ∈ formatInt v, c ≠ ' ') ∧ parseInt (formatInt v) = v) ∧
    splitSpaces (saveMapText d s.map) =
      (List.range (d.MAP_HEIGHT.toNat * d.MAP_WIDTH.toNat)).map (fun k =>
        formatInt (s.map ((k % d.MAP_WIDTH.toNat : Nat) : Int) ((k / d.MAP_WIDTH.toNat : Nat) : Int))) ∧
    (splitSpaces (saveMapText d s.map)).length = d.MAP_WIDTH.toNat * d.MAP_HEIGHT.toNat ∧
    (∀ x y : Nat, x < d.MAP_WIDTH.toNat → y < d.MAP_HEIGHT.toNat →
      ((splitSpaces (saveMapText d s.map)).map parseInt)[y * d.MAP_WIDTH.toNat + x]?
        = some (s.map (x : Int) (y : Int))) := by
  have htok : ∀ v : Int, formatInt v ≠ [] ∧ (∀ c ∈ formatInt v, c ≠ ' ') ∧
      parseInt (formatInt v) = v :=
    fun v => ⟨(formatInt_token v).1, (formatInt_token v).2, parseInt_formatInt v⟩
  have hsplit : splitSpaces (saveMapText d s.map) =
      (List.range (d.MAP_HEIGHT.toNat * d.MAP_WIDTH.toNat)).map (fun k =>
        formatInt (s.map ((k % d.MAP_WIDTH.toNat : Nat) : Int)
          ((k / d.MAP_WIDTH.toNat : Nat) : Int))) := by
    rw [saveMapText_eq]
    apply splitSpaces_tokens
    intro t ht
    obtain ⟨k, _, rfl⟩ := List.mem_map.mp ht
    exact formatInt_token _
  refine ⟨rfl, ?_, htok, hsplit, ?_, ?_⟩
  · rw [saveMapText_eq, List.flatMap_map]
  · rw [hsplit, List.length_map, List.length_range, Nat.mul_comm]
  · intro x y hx hy
    have hk : y * d.MAP_WIDTH.toNat + x < d.MAP_HEIGHT.toNat * d.MAP_WIDTH.toNat := by
      calc y * d.MAP_WIDTH.toNat + x < y * d.MAP_WIDTH.toNat + d.MAP_WIDTH.toNat := by omega
        _ = (y + 1) * d.MAP_WIDTH.toNat := by ring
        _ ≤ d.MAP_HEIGHT.toNat * d.MAP_WIDTH.toNat := Nat.mul_le_mul_right _ hy
    have hw : 0 < d.MAP_WIDTH.toNat := by omega
    rw [hsplit, List.map_map, List.getElem?_map, List.getElem?_range hk]
    simp only [Option.map_some', Function.comp, parseInt_formatInt]
    rw [Nat.mul_comm y, Nat.mul_add_mod, Nat.mod_eq_of_lt hx, Nat.mul_add_div hw,
      Nat.div_eq_of_lt hx, Nat.add_zero]

/-! ## Order of the effects of a deletion -/

theorem Chain.allocated {mem : Addr → Option Entity} {l : List Addr} :
    ∀ {st : Option Addr}, Chain mem st l → ∀ b ∈ l, ∃ e, mem b = some e := by
  induction l with
  | nil => intro st _ b hb; simp at hb
  | cons a r ih =>
    intro st h b hb
    obtain ⟨_, ent, h2, h3⟩ := h
    rcases List.mem_cons.mp hb with rfl | hb
    · exact ⟨ent, h2⟩
    · exact ih h3 b hb

theorem drawInfoLoop_spec (collision : Collision) :
    ∀ (rest : List Addr) (fuel : Nat) (st : Option Addr) (s : Editor),
      Chain s.mem st rest → rest.length ≤ fuel →
      ∃ tr, drawInfoLoop collision fuel st s = some { s with effects := s.effects ++ tr } ∧
        ∀ ev ∈ tr, ∃ w, ev = Effect.render w := by
  intro rest
  induction rest with
  | nil =>
    intro fuel st s hch _
    have : st = none := hch
    subst this
    refine ⟨[], ?_, by simp⟩
    cases fuel <;> simp [drawInfoLoop]
  | cons a r ih =>
    intro fuel st s hch hfuel
    obtain ⟨rfl, ent, hent, hchr⟩ := hch
    obtain ⟨f, rfl⟩ : ∃ f, fuel = f + 1 := ⟨fuel - 1, by simp at hfuel; omega⟩
    have hf : r.length ≤ f := by simp at hfuel; omega
    by_cases hc : collision (s.mouse.x + s.cameraX) (s.mouse.y + s.cameraY) 1 1 ent.x ent.y
        ent.w ent.h = true
    · obtain ⟨tr, hrun, htr⟩ := ih f ent.next (s.emit (Effect.render "drawText")) hchr hf
      refine ⟨Effect.render "drawText" :: tr, ?_, ?_⟩
      · simp only [drawInfoLoop, hent, hc, Option.bind_eq_bind, Option.some_bind, if_true, hrun]
        simp [Editor.emit]
      · intro ev hev
        rcases List.mem_cons.mp hev with rfl | hev
        · exact ⟨_, rfl⟩
        · exact htr ev hev
    · obtain ⟨tr, hrun, htr⟩ := ih f ent.next s hchr hf
      refine ⟨tr, ?_, htr⟩
      simp only [drawInfoLoop, hent, hc, Option.bind_eq_bind, Option.some_bind, hrun]
      rfl

theorem drawInfo_spec (collision : Collision) (s : Editor) (l : List Addr) (fuel : Nat)
    (hs : Store s l) (hfuel : l.length ≤ fuel) :
    ∃ tr, drawInfo collision fuel s = some { s with effects := s.effects ++ tr } ∧
      ∀ ev ∈ tr, ∃ w, ev = Effect.render w := by
  obtain ⟨hd, hhd, hch⟩ := hs.chain
  by_cases hm : s.mode = Mode.PICK
  · obtain ⟨tr, hrun, htr⟩ := drawInfoLoop_spec collision l fuel hd.next
      (((s.emit (.render "drawRect")).emit (.render "drawText")).emit (.render "drawText"))
      hch hfuel
    refine ⟨[Effect.render "drawRect", Effect.render "drawText", Effect.render "drawText"] ++ tr,
      ?_, ?_⟩
    · have hm' : (((s.emit (.render "drawRect")).emit (.render "drawText")).emit
          (.render "drawText")).mode = Mode.PICK := hm
      have hhd' : (((s.emit (.render "drawRect")).emit (.render "drawText")).emit
          (.render "drawText")).mem 0 = some hd := hhd
      simp only [drawInfo, hm', hhd', if_true, Option.bind_eq_bind, Option.some_bind, hrun]
      simp [Editor.emit, hm]
    · intro ev hev
      rcases List.mem_append.mp hev with h | h
      · simp only [List.mem_cons, List.mem_singleton, List.not_mem_nil, or_false] at h
        rcases h with rfl | rfl | rfl <;> exact ⟨_, rfl⟩
      · exact htr ev h
  · refine ⟨[Effect.render "drawRect", Effect.render "drawText", Effect.render "drawText"],
      ?_, ?_⟩
    · have hm' : ¬ (((s.emit (.render "drawRect")).emit (.render "drawText")).emit
          (.render "drawText")).mode = Mode.PICK := hm
      simp only [drawInfo, hm', if_false]
      simp [Editor.emit]
    · intro ev hev
      simp only [List.mem_cons, List.mem_singleton, List.not_mem_nil, or_false] at hev
      rcases hev with rfl | rfl | rfl <;> exact ⟨_, rfl⟩

theorem drawMode_unpicked (s : Editor) (hcase : s.mode ≠ Mode.PICK ∨ s.selectedEntity = none) :
    ∃ tr, drawMode s = some { s with effects := s.effects ++ tr } ∧
      ∀ ev ∈ tr, ∃ w, ev = Effect.render w := by
  unfold drawMode
  split
  · refine ⟨[Effect.render "blitAtlasImage", Effect.render "SDL_RenderDrawRect"], ?_, ?_⟩
    · simp [drawCurrentTile, Editor.emit]
    · intro ev hev
      simp only [List.mem_cons, List.mem_singleton, List.not_mem_nil, or_false] at hev
      rcases hev with rfl | rfl <;> exact ⟨_, rfl⟩
  · refine ⟨[Effect.render "blitAtlasImage"], ?_, ?_⟩
    · simp [drawCurrentEnt, Editor.emit]
    · intro ev hev
      simp only [List.mem_singleton] at hev
      exact ⟨_, hev⟩
  · rename_i hm
    have hnone : s.selectedEntity = none := by
      rcases hcase with h | h
      · exact absurd hm h
      · exact h
    refine ⟨[], ?_, by simp⟩
    rw [List.append_nil]
    unfold drawSelectedEnt
    split
    · rename_i heq
      rw [hnone] at heq
      cases heq
    · rfl

theorem drawMode_picked (s : Editor) (sel : Addr) (ent : Entity) (hm : s.mode = Mode.PICK)
    (hsel : s.selectedEntity = some sel) (hent : s.mem sel = some ent) :
    drawMode s = some { s with
      mem := Function.update s.mem sel (some { ent with
        x := (s.mouse.x.tdiv 8) * 8 + s.cameraX, y := (s.mouse.y.tdiv 8) * 8 + s.cameraY })
      effects := s.effects ++
        [Effect.removeFromQuadtree sel ent.x ent.y ent.w ent.h,
         Effect.setX sel ((s.mouse.x.tdiv 8) * 8 + s.cameraX),
         Effect.setY sel ((s.mouse.y.tdiv 8) * 8 + s.cameraY),
         Effect.addToQuadtree sel ((s.mouse.x.tdiv 8) * 8 + s.cameraX)
           ((s.mouse.y.tdiv 8) * 8 + s.cameraY) ent.w ent.h] } := by
  unfold drawMode
  split
  · rename_i heq; exact absurd (hm.symm.trans heq) (by decide)
  · rename_i heq; exact absurd (hm.symm.trans heq) (by decide)
  · simp [drawSelectedEnt, Editor.emit, Editor.store, hsel, hent]

/-- C10 as amended: on a well-formed entity store the draw pass returns, and
(1) unless the mode is PICK and an entity is picked, it leaves the whole editor
state unchanged apart from the render calls it records, so no entity field
changes and no `removeFromQuadtree`/`addToQuadtree` call is made; (2) in PICK
mode with a live entity picked, `drawSelectedEnt` calls `removeFromQuadtree` on
it, writes x = (mouse.x / 8) * 8 + camera.x and y = (mouse.y / 8) * 8 + camera.y
into it and calls `addToQuadtree`, and nothing else of the state changes apart
from the render calls. -/
theorem draw_mutates_only_picked (collision : Collision) (s : Editor) (l : List Addr)
    (fuel : Nat) (hs : Store s l) (hfuel : l.length ≤ fuel) :
    ((s.mode ≠ Mode.PICK ∨ s.selectedEntity = none) →
      ∃ tr, draw collision fuel s = some { s with effects := s.effects ++ tr } ∧
        ∀ ev ∈ tr, ∃ w, ev = Effect.render w) ∧
    (∀ sel ent, s.mode = Mode.PICK → s.selectedEntity = some sel → s.mem sel = some ent →
      ∃ tr, draw collision fuel s = some { s with
          mem := Function.update s.mem sel (some { ent with
            x := (s.mouse.x.tdiv 8) * 8 + s.cameraX, y := (s.mouse.y.tdiv 8) * 8 + s.cameraY })
          effects := s.effects ++
            [Effect.render "drawMap", Effect.render "drawEntities(0)",
             Effect.render "drawEntities(1)",
             Effect.removeFromQuadtree sel ent.x ent.y ent.w ent.h,
             Effect.setX sel ((s.mouse.x.tdiv 8) * 8 + s.cameraX),
             Effect.setY sel ((s.mouse.y.tdiv 8) * 8 + s.cameraY),
             Effect.addToQuadtree sel ((s.mouse.x.tdiv 8) * 8 + s.cameraX)
               ((s.mouse.y.tdiv 8) * 8 + s.cameraY) ent.w ent.h] ++ tr } ∧
        ∀ ev ∈ tr, ∃ w, ev = Effect.render w) := by
  have e0 : drawEntities 1 (drawEntities 0 (drawMap s)) = { s with
      effects := s.effects ++ [Effect.render "drawMap", Effect.render "drawEntities(0)",
        Effect.render "drawEntities(1)"] } := by
    simp [drawEntities, drawMap, Editor.emit]
  have hs0 : Store (drawEntities 1 (drawEntities 0 (drawMap s))) l := hs.of_eq rfl rfl
  constructor
  · intro hcase
    obtain ⟨tr1, hmid, htr1⟩ := drawMode_unpicked (drawEntities 1 (drawEntities 0 (drawMap s)))
      hcase
    have hst : Store { drawEntities 1 (drawEntities 0 (drawMap s)) with
          effects := (drawEntities 1 (drawEntities 0 (drawMap s))).effects ++ tr1 } l :=
      hs0.of_eq rfl rfl
    obtain ⟨tr2, hinfo, htr2⟩ := drawInfo_spec collision _ l fuel hst hfuel
    refine ⟨[Effect.render "drawMap", Effect.render "drawEntities(0)",
      Effect.render "drawEntities(1)"] ++ tr1 ++ tr2, ?_, ?_⟩
    · unfold draw
      simp only [Option.bind_eq_bind]
      rw [hmid, Option.some_bind, hinfo, e0]
      simp
    · intro ev hev
      rcases List.mem_append.mp hev with h | h
      · rcases List.mem_append.mp h with h | h
        · simp only [List.mem_cons, List.mem_singleton, List.not_mem_nil, or_false] at h
          rcases h with rfl | rfl | rfl <;> exact ⟨_, rfl⟩
        · exact htr1 ev h
      · exact htr2 ev h
  · intro sel ent hm hsel hent
    have hmid := drawMode_picked (drawEntities 1 (drawEntities 0 (drawMap s))) sel ent hm hsel hent
    have hst : Store { drawEntities 1 (drawEntities 0 (drawMap s)) with
        mem := Function.update (drawEntities 1 (drawEntities 0 (drawMap s))).mem sel
          (some { ent with
            x := (s.mouse.x.tdiv 8) * 8 + s.cameraX, y := (s.mouse.y.tdiv 8) * 8 + s.cameraY })
        effects := (drawEntities 1 (drawEntities 0 (drawMap s))).effects ++
          [Effect.removeFromQuadtree sel ent.x ent.y ent.w ent.h,
           Effect.setX sel ((s.mouse.x.tdiv 8) * 8 + s.cameraX),
           Effect.setY sel ((s.mouse.y.tdiv 8) * 8 + s.cameraY),
           Effect.addToQuadtree sel ((s.mouse.x.tdiv 8) * 8 + s.cameraX)
             ((s.mouse.y.tdiv 8) * 8 + s.cameraY) ent.w ent.h] } l := by
      refine hs.of_same_links ?_ rfl
      intro a e he
      by_cases ha : a = sel
      · subst ha
        rw [hent] at he
        cases he
        exact ⟨{ ent with
            x := (s.mouse.x.tdiv 8) * 8 + s.cameraX
            y := (s.mouse.y.tdiv 8) * 8 + s.cameraY },
          Function.update_same _ _ _, rfl⟩
      · refine ⟨e, ?_, rfl⟩
        show Function.update s.mem sel _ a = some e
        rw [Function.update_noteq ha]; exact he
    obtain ⟨tr2, hinfo, htr2⟩ := drawInfo_spec collision _ l fuel hst hfuel
    refine ⟨tr2, ?_, htr2⟩
    unfold draw
    simp only [Option.bind_eq_bind]
    rw [hmid, Option.some_bind]
    refine hinfo.trans ?_
    rw [e0]
    simp

theorem draw_mutates_only_picked_witness :
    Store pickedEditor [1, 2, 3] ∧ [1, 2, 3].length ≤ 3 ∧
    pickedEditor.mode = Mode.PICK ∧ pickedEditor.selectedEntity = some 2 ∧
    ∃ s', draw boxCollision 3 pickedEditor = some s' ∧
      s'.mem 2 = some (sampleEntity "platform" 144 56 (.platform ⟨16, 16, []⟩) (some 3)) := by
  have hs : Store pickedEditor [1, 2, 3] := sampleEditor_store.of_eq rfl rfl
  obtain ⟨tr, h, _⟩ := (draw_mutates_only_picked boxCollision pickedEditor [1, 2, 3] 3
    hs (by decide)).2 2 (sampleEntity "platform" 16 16 (.platform ⟨16, 16, []⟩) (some 3))
    rfl rfl rfl
  exact ⟨hs, by decide, rfl, rfl, _, h, rfl⟩

/-- C10, counterexample: in PICK mode with the platform at address 2 picked,
the draw pass moves it from (16, 16) to (144, 56) and calls into the spatial
index. -/
theorem draw_moves_picked_entity :
    (pickedEditor.mem 2).map (fun e => (e.x, e.y)) = some (16, 16) ∧
    (draw boxCollision 3 pickedEditor).map (fun s =>
      ((s.mem 2).map (fun e => (e.x, e.y)), s.effects.any Effect.isQuadtreeCall))
      = some (some (144, 56), true) :=
  ⟨rfl, rfl⟩

/-! ## The id of a cloned stage -/

theorem foldl_max_except (exclude : Int) :
    ∀ (v : List Int) (init : Int), init ≠ exclude ∨ init = -1 →
      (v.foldl (fun max x => if x ≠ exclude ∧ x > max then x else max) init = init ∨
        (v.foldl (fun max x => if x ≠ exclude ∧ x > max then x else max) init ∈ v ∧
         v.foldl (fun max x => if x ≠ exclude ∧ x > max then x else max) init ≠ exclude)) ∧
      init ≤ v.foldl (fun max x => if x ≠ exclude ∧ x > max then x else max) init ∧
      ∀ x ∈ v, x ≠ exclude →
        x ≤ v.foldl (fun max x => if x ≠ exclude ∧ x > max then x else max) init := by
  intro v
  induction v with
  | nil => intro init _; simp
  | cons a r ih =>
    intro init hinit
    simp only [List.foldl_cons]
    by_cases hc : a ≠ exclude ∧ a > init
    · rw [if_pos hc]
      obtain ⟨h1, h2, h3⟩ := ih a (Or.inl hc.1)
      refine ⟨Or.inr ?_, by omega, ?_⟩
      · rcases h1 with h | ⟨h, h'⟩
        · rw [h]; exact ⟨List.mem_cons_self _ _, hc.1⟩
        · exact ⟨List.mem_cons_of_mem _ h, h'⟩
      · intro x hx hne
        rcases List.mem_cons.mp hx with rfl | hx
        · exact h2
        · exact h3 x hx hne
    · rw [if_neg hc]
      obtain ⟨h1, h2, h3⟩ := ih init hinit
      refine ⟨?_, h2, ?_⟩
      · rcases h1 with h | ⟨h, h'⟩
        · exact Or.inl h
        · exact Or.inr ⟨List.mem_cons_of_mem _ h, h'⟩
      · intro x hx hne
        rcases List.mem_cons.mp hx with rfl | hx
        · have : x ≤ init := by
            by_contra hlt
            exact hc ⟨hne, by omega⟩
          omega
        · exact h3 x hx hne

theorem vector_max_except_spec (ids : List Int) (exclude : Int) (hnn : ∀ x ∈ ids, 0 ≤ x) :
    ((∃ x ∈ ids, x ≠ exclude) →
      vector_max_except ids exclude ∈ ids ∧ vector_max_except ids exclude ≠ exclude ∧
      ∀ x ∈ ids, x ≠ exclude → x ≤ vector_max_except ids exclude) ∧
    ((∀ x ∈ ids, x = exclude) → vector_max_except ids exclude = -1) := by
  obtain ⟨h1, _, h3⟩ := foldl_max_except exclude ids (-1) (Or.inr rfl)
  constructor
  · rintro ⟨x, hx, hne⟩
    have hx0 := hnn x hx
    have hle := h3 x hx hne
    rcases h1 with h | ⟨h, h'⟩
    · unfold vector_max_except
      rw [h] at hle
      omega
    · exact ⟨h, h', h3⟩
  · intro hall
    rcases h1 with h | ⟨h, h'⟩
    · exact h
    · exact absurd (hall _ h) h'

theorem newId_mem_iff (ids : List Int) :
    newId ids ∈ ids ↔ vector_max_except ids 999 = 998 ∧ (999 : Int) ∈ ids := by
  obtain ⟨_, h2, h3⟩ := foldl_max_except 999 ids (-1) (Or.inr rfl)
  constructor
  · intro hmem
    by_cases h999 : newId ids = 999
    · refine ⟨?_, h999 ▸ hmem⟩
      unfold newId at h999
      omega
    · have := h3 _ hmem h999
      unfold newId vector_max_except at this
      omega
  · rintro ⟨h, hmem⟩
    unfold newId
    rw [h]
    exact hmem

/-- C12, the failing input: with stage files 998 and 999 present,
`vector_max_except(ids, 999)` returns 998, the largest id other than 999 as the
claim says, but the id chosen for the clone, 998 + 1 = 999, is an element of
ids, and the clone replaces the existing file of stage 999. -/
theorem clone_overwrites_stage_999 :
    vector_max_except [998, 999] 999 = 998 ∧ newId [998, 999] = 999 ∧
    newId [998, 999] ∈ ([998, 999] : List Int) ∧
    cloneStage [998, 999] = ([998, 999], true) := by
  decide

/-! ## The `_WIN32` variant of `saveMap` -/

theorem decDigitsAux_length :
    ∀ (fuel n : Nat) (acc : List Char) (k : Nat), n < fuel → 1 ≤ k → n < 10 ^ k →
      (decDigitsAux fuel n acc).length ≤ k + acc.length := by
  intro fuel
  induction fuel with
  | zero => intro n acc k h; omega
  | succ f ih =>
    intro n acc k h hk hn
    unfold decDigitsAux
    split
    · simp only [List.length_cons]; omega
    · rename_i h10
      have hk2 : 2 ≤ k := by
        by_contra hc
        have : k = 1 := by omega
        subst this
        omega
      obtain ⟨j, rfl⟩ : ∃ j, k = j + 1 := ⟨k - 1, by omega⟩
      have hdiv : n / 10 < 10 ^ j := by
        rw [Nat.div_lt_iff_lt_mul (by decide)]
        rw [pow_succ] at hn
        exact hn
      have := ih (n / 10) (digitChar (n % 10) :: acc) j (by omega) (by omega) hdiv
      simp only [List.length_cons] at this
      omega

/-- A 32-bit `int` printed with `%d` has at most 11 characters. -/
theorem formatInt_length (v : Int) (h1 : -2147483648 ≤ v) (h2 : v ≤ 2147483647) :
    (formatInt v).length ≤ 11 := by
  have hn : v.natAbs < 10 ^ 10 := by
    have : v.natAbs ≤ 2147483648 := by omega
    exact lt_of_le_of_lt this (by norm_num)
  have := decDigitsAux_length (v.natAbs + 1) v.natAbs [] 10 (Nat.lt_succ_self _) (by decide) hn
  unfold formatInt decDigits
  split
  · simp only [List.length_cons, List.length_nil] at this ⊢; omega
  · simp only [List.length_nil] at this ⊢; omega

theorem saveMapWinRow_spec (map : Int → Int → Int) (y : Nat) :
    ∀ (xs : List Nat) (b : WinBuf) (k : Nat), b.truncated = false →
      12 * (xs.length + k) + 1 ≤ b.remaining →
      (∀ x ∈ xs, -2147483648 ≤ map (x : Int) (y : Int) ∧ map (x : Int) (y : Int) ≤ 2147483647) →
      (saveMapWinRow map y xs b).truncated = false ∧
      12 * k + 1 ≤ (saveMapWinRow map y xs b).remaining ∧
      (saveMapWinRow map y xs b).text.getD [] =
        b.text.getD [] ++ xs.flatMap (fun x => formatInt (map (x : Int) (y : Int)) ++ [' ']) ∧
      (saveMapWinRow map y xs b).remaining +
        (xs.flatMap (fun x => formatInt (map (x : Int) (y : Int)) ++ [' '])).length = b.remaining ∧
      (xs ≠ [] ∨ b.text.isSome = true → (saveMapWinRow map y xs b).text.isSome = true) := by
  intro xs
  induction xs with
  | nil =>
    intro b k ht hr _
    simp only [saveMapWinRow, List.length_nil, Nat.zero_add] at hr ⊢
    refine ⟨ht, hr, by simp, by simp, ?_⟩
    rintro (h | h)
    · exact absurd rfl h
    · exact h
  | cons x xs ih =>
    intro b k ht hr hv
    have hx := hv x (List.mem_cons_self _ _)
    have hlen := formatInt_length _ hx.1 hx.2
    simp only [List.length_cons] at hr
    have hw : (formatInt (map (x : Int) (y : Int)) ++ [' ']).length ≤ 12 := by
      simp only [List.length_append, List.length_cons, List.length_nil]; omega
    have hfit : ¬ (formatInt (map (x : Int) (y : Int)) ++ [' ']).length ≥ b.remaining := by omega
    have htake : (formatInt (map (x : Int) (y : Int)) ++ [' ']).take (b.remaining - 1)
        = formatInt (map (x : Int) (y : Int)) ++ [' '] :=
      List.take_of_length_le (by omega)
    have hstep : saveMapWinRow map y (x :: xs) b = saveMapWinRow map y xs
        { text := some (b.text.getD [] ++ (formatInt (map (x : Int) (y : Int)) ++ [' '])),
          remaining := b.remaining - (formatInt (map (x : Int) (y : Int)) ++ [' ']).length,
          truncated := b.truncated } := by
      rw [saveMapWinRow]
      simp only [snprintfCell, htake]
      rw [if_neg hfit]
    rw [hstep]
    obtain ⟨r1, r2, r3, r4, r5⟩ := ih
      { text := some (b.text.getD [] ++ (formatInt (map (x : Int) (y : Int)) ++ [' '])),
        remaining := b.remaining - (formatInt (map (x : Int) (y : Int)) ++ [' ']).length,
        truncated := b.truncated } k ht (by simp only; omega)
      (fun x' hx' => hv x' (List.mem_cons_of_mem _ hx'))
    refine ⟨r1, r2, ?_, ?_, fun _ => r5 (Or.inr rfl)⟩
    · rw [r3]
      simp only [Option.getD_some, List.flatMap_cons, List.append_assoc]
    · simp only [List.flatMap_cons, List.length_append] at r4 ⊢
      simp only [List.length_append] at hw hfit
      omega

theorem saveMapWinRows_spec (map : Int → Int → Int) (xs : List Nat) :
    ∀ (ys : List Nat) (b : WinBuf) (k : Nat), b.truncated = false →
      12 * (ys.length * xs.length + k) + 1 ≤ b.remaining →
      (∀ y ∈ ys, ∀ x ∈ xs,
        -2147483648 ≤ map (x : Int) (y : Int) ∧ map (x : Int) (y : Int) ≤ 2147483647) →
      (saveMapWinRows map xs ys b).truncated = false ∧
      12 * k + 1 ≤ (saveMapWinRows map xs ys b).remaining ∧
      (saveMapWinRows map xs ys b).text.getD [] =
        b.text.getD [] ++ ys.flatMap (fun y =>
          xs.flatMap (fun x => formatInt (map (x : Int) (y : Int)) ++ [' '])) ∧
      (saveMapWinRows map xs ys b).remaining +
        (ys.flatMap (fun y =>
          xs.flatMap (fun x => formatInt (map (x : Int) (y : Int)) ++ [' ']))).length
          = b.remaining ∧
      ((ys ≠ [] ∧ xs ≠ []) ∨ b.text.isSome = true →
        (saveMapWinRows map xs ys b).text.isSome = true) := by
  intro ys
  induction ys with
  | nil =>
    intro b k ht hr _
    simp only [saveMapWinRows, List.length_nil, Nat.zero_mul, Nat.zero_add] at hr ⊢
    refine ⟨ht, hr, by simp, by simp, ?_⟩
    rintro (h | h)
    · exact absurd rfl h.1
    · exact h
  | cons y ys ih =>
    intro b k ht hr hv
    simp only [List.length_cons, Nat.succ_mul] at hr
    obtain ⟨q1, q2, q3, q4, q5⟩ := saveMapWinRow_spec map y xs b (ys.length * xs.length + k) ht
      (by omega) (hv y (List.mem_cons_self _ _))
    have hstep : saveMapWinRows map xs (y :: ys) b
        = saveMapWinRows map xs ys (saveMapWinRow map y xs b) := by
      rw [saveMapWinRows]
      simp only [q1, Bool.false_eq_true, if_false]
    rw [hstep]
    obtain ⟨r1, r2, r3, r4, r5⟩ := ih (saveMapWinRow map y xs b) k q1 q2
      (fun y' hy' => hv y' (List.mem_cons_of_mem _ hy'))
    refine ⟨r1, r2, ?_, ?_, ?_⟩
    · rw [r3, q3]
      simp only [List.flatMap_cons, List.append_assoc]
    · simp only [List.flatMap_cons, List.length_append]
      omega
    · rintro (h | h)
      · exact r5 (Or.inr (q5 (Or.inl h.2)))
      · exact r5 (Or.inr (q5 (Or.inr h)))

theorem saveMapText_flat (d : Defs) (map : Int → Int → Int) :
    saveMapText d map = (List.range d.MAP_HEIGHT.toNat).flatMap (fun y =>
      (List.range d.MAP_WIDTH.toNat).flatMap
        (fun x => formatInt (map (x : Int) (y : Int)) ++ [' '])) := by
  unfold saveMapText
  simp only [foldl_append_flatMap, List.nil_append]

/-- C13: with a grid of at least one cell that holds 32-bit values, the `_WIN32`
variant of `saveMap` never takes its truncation branch: every `"%d "` write has
at most 12 characters and fewer than `remaining`, at least one byte of the buffer
of `MAP_WIDTH * MAP_HEIGHT * 12 + 1` is left at the end, and the string added
under `"map"` is the one the `open_memstream` variant adds. -/
theorem saveMapWindows_eq_saveMap (d : Defs) (s : Editor) (root : List (String × JSON))
    (hw : 0 < d.MAP_WIDTH) (hh : 0 < d.MAP_HEIGHT)
    (hint : ∀ x y : Int, 0 ≤ x → x < d.MAP_WIDTH → 0 ≤ y → y < d.MAP_HEIGHT →
      -2147483648 ≤ s.map x y ∧ s.map x y ≤ 2147483647) :
    (∀ x y : Int, 0 ≤ x → x < d.MAP_WIDTH → 0 ≤ y → y < d.MAP_HEIGHT →
      ∀ remaining : Nat, (snprintfCell remaining (s.map x y)).2 ≤ 12) ∧
    (saveMapWinBuf d s.map).truncated = false ∧
    (saveMapWinBuf d s.map).text = some (saveMapText d s.map) ∧
    (saveMapWinBuf d s.map).remaining + (saveMapText d s.map).length
      = (d.MAP_WIDTH * d.MAP_HEIGHT * 12 + 1).toNat ∧
    1 ≤ (saveMapWinBuf d s.map).remaining ∧
    saveMapWindows d s root = some (saveMap d s root) := by
  have hsize : (d.MAP_WIDTH * d.MAP_HEIGHT * 12 + 1).toNat
      = 12 * (d.MAP_HEIGHT.toNat * d.MAP_WIDTH.toNat + 0) + 1 := by
    obtain ⟨w, hw'⟩ := Int.eq_ofNat_of_zero_le (le_of_lt hw)
    obtain ⟨h, hh'⟩ := Int.eq_ofNat_of_zero_le (le_of_lt hh)
    rw [hw', hh']
    simp only [Int.toNat_ofNat]
    have : ((w : Int) * (h : Int) * 12 + 1) = ((w * h * 12 + 1 : Nat) : Int) := by push_cast; ring
    rw [this, Int.toNat_ofNat]
    ring
  have hvals : ∀ y ∈ List.range d.MAP_HEIGHT.toNat, ∀ x ∈ List.range d.MAP_WIDTH.toNat,
      -2147483648 ≤ s.map (x : Int) (y : Int) ∧ s.map (x : Int) (y : Int) ≤ 2147483647 := by
    intro y hy x hx
    rw [List.mem_range] at hy hx
    exact hint x y (by omega) (by omega) (by omega) (by omega)
  obtain ⟨r1, r2, r3, r4, r5⟩ := saveMapWinRows_spec s.map (List.range d.MAP_WIDTH.toNat)
    (List.range d.MAP_HEIGHT.toNat)
    { text := none, remaining := (d.MAP_WIDTH * d.MAP_HEIGHT * 12 + 1).toNat, truncated := false }
    0 rfl (by simp only [List.length_range]; omega) hvals
  have hne : List.range d.MAP_HEIGHT.toNat ≠ [] ∧ List.range d.MAP_WIDTH.toNat ≠ [] := by
    constructor
    · intro h
      have := congrArg List.length h
      simp only [List.length_range, List.length_nil] at this
      omega
    · intro h
      have := congrArg List.length h
      simp only [List.length_range, List.length_nil] at this
      omega
  have hsome := r5 (Or.inl hne)
  have htext : (saveMapWinBuf d s.map).text = some (saveMapText d s.map) := by
    unfold saveMapWinBuf
    rw [saveMapText_flat]
    rcases ht : (saveMapWinRows s.map (List.range d.MAP_WIDTH.toNat)
      (List.range d.MAP_HEIGHT.toNat)
      { text := none, remaining := (d.MAP_WIDTH * d.MAP_HEIGHT * 12 + 1).toNat,
        truncated := false }).text with _ | t
    · rw [ht] at hsome
      exact absurd hsome (by simp)
    · rw [ht] at r3
      simp only [Option.getD_some, Option.getD_none, List.nil_append] at r3
      rw [r3]
  refine ⟨?_, r1, htext, ?_, by unfold saveMapWinBuf; omega, ?_⟩
  · intro x y hx0 hx1 hy0 hy1 remaining
    have hv := hint x y hx0 hx1 hy0 hy1
    have := formatInt_length _ hv.1 hv.2
    simp only [snprintfCell, List.length_append, List.length_cons, List.length_nil]
    omega
  · rw [saveMapText_flat]
    exact r4
  · unfold saveMapWindows saveMap
    rw [htext]
    rfl

theorem saveMapWindows_eq_saveMap_witness :
    (0 : Int) < smallDefs.MAP_WIDTH ∧ (0 : Int) < smallDefs.MAP_HEIGHT ∧
    extremeEditor.map 0 1 = -2147483648 ∧ extremeEditor.map 1 0 = 2147483647 ∧
    (saveMapWinBuf smallDefs extremeEditor.map).truncated = false ∧
    (saveMapWinBuf smallDefs extremeEditor.map).remaining +
      (saveMapText smallDefs extremeEditor.map).length = 73 ∧
    saveMapWindows smallDefs extremeEditor [] = some (saveMap smallDefs extremeEditor []) :=
  have h := saveMapWindows_eq_saveMap smallDefs extremeEditor [] (by decide) (by decide)
    (by
      intro x y _ _ _ _
      simp only [extremeEditor]
      split_ifs <;> simp only [smallDefs] at * <;> omega)
  ⟨by decide, by decide, by decide, by decide, h.2.1, h.2.2.2.1, h.2.2.2.2.2⟩

/-! ## The picked entity across logic passes -/

theorem PickLinked.pick_allocated {s : Editor} (h : PickLinked s) {a : Addr}
    (ha : s.selectedEntity = some a) : ∃ e, s.mem a = some e := by
  obtain ⟨l, hs, hal⟩ := h a ha
  obtain ⟨_, _, hch⟩ := hs.chain
  exact hch.allocated a hal

/-- The mode keys: when space is not pressed, the keyboard blocks of `logic`
write the key flags and `mode` and nothing else; the last of the keys `1`, `2`,
`3` that is down decides the mode. -/
theorem logicKeys_mode_only (d : Defs) (ext : Extern) (fuel : Nat) (s : Editor)
    (hsp : s.keyboard.space = false) :
    ∃ s', logicKeys d ext fuel s = some s' ∧
      s' = { s with keyboard := s'.keyboard, mode := s'.mode } ∧
      s'.selectedEntity = s.selectedEntity ∧
      s'.mode = (if s.keyboard.k3 then Mode.PICK else if s.keyboard.k2 then Mode.ENT
        else if s.keyboard.k1 then Mode.TILE else s.mode) := by
  unfold logicKeys
  rw [hsp]
  simp only [Bool.false_eq_true, if_false, Option.pure_def, Option.bind_eq_bind,
    Option.some_bind]
  refine ⟨_, rfl, ?_, ?_, ?_⟩ <;>
    cases h1 : s.keyboard.k1 <;> cases h2 : s.keyboard.k2 <;> cases h3 : s.keyboard.k3 <;>
    simp [h1, h2, h3]

/-- The function `deleteEntity` does not write `selectedEntity`: on a well-formed
store it returns, the pick is what it was, and every entity under the cursor is
freed. -/
theorem deleteEntity_keeps_pick (collision : Collision) (s : Editor) (l : List Addr)
    (fuel : Nat) (hs : Store s l) (hfuel : l.length ≤ fuel) :
    ∃ s', deleteEntity collision fuel s = some s' ∧
      s'.selectedEntity = s.selectedEntity ∧
      ∀ a ∈ l, underCursor collision s a = true → s'.mem a = none := by
  obtain ⟨hd, hhd, hch⟩ := hs.chain
  obtain ⟨s', p', hrun, _, _, _, _, hdel, _, _, _, hframe⟩ :=
    deleteEntityLoop_spec collision l fuel 0 s hd hhd hch
      (List.nodup_cons.mpr ⟨hs.nohead, hs.nodup⟩) hfuel (fun _ => hs.tail)
  refine ⟨s', by simp [deleteEntity, hhd, hrun], ?_, hdel⟩
  rw [hframe]

/-- Deleting the picked entity: when the picked entity is in the store and under
the cursor, `deleteEntity` returns a state in which the pick refers to a freed
entity. -/
theorem deleteEntity_breaks_pick (collision : Collision) (s : Editor) (l : List Addr)
    (fuel : Nat) (a : Addr) (hs : Store s l) (hfuel : l.length ≤ fuel)
    (hsel : s.selectedEntity = some a) (ha : a ∈ l) (hc : underCursor collision s a = true) :
    ∃ s', deleteEntity collision fuel s = some s' ∧ s'.selectedEntity = some a ∧
      s'.mem a = none ∧ ¬ PickLinked s' := by
  obtain ⟨s', hrun, hkeep, hdel⟩ := deleteEntity_keeps_pick collision s l fuel hs hfuel
  have hfree := hdel a ha hc
  refine ⟨s', hrun, hkeep.trans hsel, hfree, ?_⟩
  intro hp
  obtain ⟨e, he⟩ := hp.pick_allocated (hkeep.trans hsel)
  rw [hfree] at he
  exact Option.noConfusion he

theorem initialEditor_store : Store initialEditor [1, 2, 3] :=
  ⟨⟨_, rfl, rfl, _, rfl, rfl, _, rfl, rfl, _, rfl, rfl⟩, by decide, by decide, rfl⟩

/-- C11, the failing input: from the state in which `main` enters its loop with
the three sample entities stored and nothing picked, the four frames key `3`,
primary button, key `2`, secondary button (cursor at (5, 5), over the entity at
address 1) end with `selectedEntity` at address 1 while that entity is freed and
unlinked (the sentinel links to 2): a reachable state in which the pick is not
linked in the store.  The draw passes in between do not change this, and two
more frames (key `3`, primary button) dereference the freed entity, which is
outside the model (`none`); with the draw passes the frame of key `3` does. -/
theorem delete_leaves_dangling_pick :
    initialEditor.selectedEntity = none ∧ initialEditor.mode = Mode.TILE ∧
    Store initialEditor [1, 2, 3] ∧
    (logicSteps sampleDefs sampleExtern 3 danglingInputs initialEditor).map
      (fun s => (s.selectedEntity, (s.mem 1).isSome, (s.mem 0).map (fun e => e.next),
        s.entityTail, s.mode))
      = some (some 1, false, some (some 2), 3, Mode.ENT) ∧
    (frames sampleDefs sampleExtern 3 danglingInputs initialEditor).map
      (fun s => (s.selectedEntity, (s.mem 1).isSome, (s.mem 0).map (fun e => e.next),
        s.entityTail, s.mode))
      = some (some 1, false, some (some 2), 3, Mode.ENT) ∧
    (∃ s, Reachable sampleDefs sampleExtern 3 initialEditor s ∧ ¬ PickLinked s) ∧
    (logicSteps sampleDefs sampleExtern 3 (danglingInputs ++ [key3Input, leftInput])
      initialEditor).isNone = true ∧
    (frames sampleDefs sampleExtern 3 (danglingInputs ++ [key3Input])
      initialEditor).isNone = true := by
  have heval : (logicSteps sampleDefs sampleExtern 3 danglingInputs initialEditor).map
      (fun s => (s.selectedEntity, (s.mem 1).isSome)) = some (some 1, false) := rfl
  refine ⟨rfl, rfl, initialEditor_store, rfl, rfl, ?_, rfl, rfl⟩
  cases hrun : logicSteps sampleDefs sampleExtern 3 danglingInputs initialEditor with
  | none => rw [hrun] at heval; exact Option.noConfusion heval
  | some s =>
    rw [hrun] at heval
    simp only [Option.map_some', Option.some.injEq, Prod.mk.injEq] at heval
    refine ⟨s, ⟨danglingInputs, hrun⟩, fun hp => ?_⟩
    obtain ⟨e, he⟩ := hp.pick_allocated heval.1
    rw [he] at heval
    exact Bool.noConfusion heval.2

end MapEditor
